import Mathlib

set_option maxRecDepth 8192

/-! Shallow embedding of the potato-engine ECS core (src/ecs/src): entity
allocation (entities.rs), the component type registry (components.rs),
archetype tables (archetypes.rs), the World operations spawn, get_component
and query (lib.rs), and the macro-generated query_archetype resolution
(ecs_macros/src/lib.rs, impl_query_combinations).

Modelling conventions: Rust u32/usize are modelled as Nat (wraparound beyond
the machine width is not modelled); TypeId is modelled as Nat; component
values are modelled as Nat; a panic (out-of-bounds index, failed unwrap,
failed expect, failed downcast, assert) is modelled as an Option none result.
Vec push/pop operate at the end of a Rust Vec; the free list stack is
represented with the list head as the stack top. -/

/-- Entity handle, entities.rs: struct EntityId { index: u32, generation: u32 }. -/
structure EntityId where
  index : Nat
  generation : Nat
deriving DecidableEq

/-- entities.rs: struct EntityAllocator { generations: Vec<u32>, free_list: Vec<u32> }. -/
structure EntityAllocator where
  generations : List Nat
  free_list : List Nat
deriving DecidableEq

/-- entities.rs: EntityAllocator::new. -/
def EntityAllocator.new : EntityAllocator := ⟨[], []⟩

/-- entities.rs: EntityAllocator::allocate. Pops a recycled index from the free
list (reusing the stored generation; the direct indexing generations[index]
panics, hence none, when the popped index is out of range), else appends a new
slot with generation 0. -/
def EntityAllocator.allocate (a : EntityAllocator) : Option (EntityAllocator × EntityId) :=
  match a.free_list with
  | index :: rest =>
    match a.generations[index]? with
    | some generation => some ({ a with free_list := rest }, ⟨index, generation⟩)
    | none => none
  | [] => some ({ a with generations := a.generations ++ [0] }, ⟨a.generations.length, 0⟩)

/-- entities.rs: EntityAllocator::deallocate. The direct indexing
self.generations[index] panics (none) when the index is out of range; when the
stored generation matches it is incremented and the index pushed on the free
list; otherwise the call is a no-op. -/
def EntityAllocator.deallocate (a : EntityAllocator) (entity : EntityId) : Option EntityAllocator :=
  match a.generations[entity.index]? with
  | none => none
  | some g =>
    if g = entity.generation then
      some ⟨a.generations.set entity.index (g + 1), entity.index :: a.free_list⟩
    else
      some a

/-- entities.rs: EntityAllocator::is_alive, via generations.get(index) and
map_or(false, |&g| g == entity.generation). -/
def EntityAllocator.is_alive (a : EntityAllocator) (entity : EntityId) : Bool :=
  match a.generations[entity.index]? with
  | some g => g == entity.generation
  | none => false

/-- The two operations the allocator exposes that change its state. -/
inductive AllocOp where
  | alloc : AllocOp
  | dealloc : EntityId → AllocOp

/-- Run one allocator operation, none when it panics. -/
def AllocOp.step (a : EntityAllocator) : AllocOp → Option EntityAllocator
  | .alloc => (a.allocate).map Prod.fst
  | .dealloc e => a.deallocate e

/-- Run a sequence of allocator operations, none when any step panics. -/
def runOps (a : EntityAllocator) : List AllocOp → Option EntityAllocator
  | [] => some a
  | op :: ops =>
    match AllocOp.step a op with
    | some a1 => runOps a1 ops
    | none => none

/-- Iterator position over a TypeId list, components.rs:
self.type_to_index.iter().position(|&id| id == type_id). -/
def get_index_list (ty : Nat) : List Nat → Option Nat
  | [] => none
  | id :: rest => if id = ty then some 0 else (get_index_list ty rest).map (· + 1)

/-- components.rs: ComponentTypeIndexRegistry. The factories vector is fully
determined by type_to_index (factory i constructs an empty column whose element
type is the i-th registered type), so the model stores only type_to_index. -/
structure ComponentTypeIndexRegistry where
  type_to_index : List Nat
deriving DecidableEq

/-- components.rs: ComponentTypeIndexRegistry::new. -/
def ComponentTypeIndexRegistry.new : ComponentTypeIndexRegistry := ⟨[]⟩

/-- components.rs: ComponentTypeIndexRegistry::get_index. -/
def ComponentTypeIndexRegistry.get_index (r : ComponentTypeIndexRegistry) (ty : Nat) : Option Nat :=
  get_index_list ty r.type_to_index

/-- components.rs: ComponentTypeIndexRegistry::get_or_register. Returns the
existing position of the type, or appends it (and its column factory) at index
len. -/
def ComponentTypeIndexRegistry.get_or_register (r : ComponentTypeIndexRegistry) (ty : Nat) :
    ComponentTypeIndexRegistry × Nat :=
  match r.get_index ty with
  | some i => (r, i)
  | none => (⟨r.type_to_index ++ [ty]⟩, r.type_to_index.length)

/-- components.rs: ComponentTypeIndexRegistry::len. -/
def ComponentTypeIndexRegistry.len (r : ComponentTypeIndexRegistry) : Nat :=
  r.type_to_index.length

/-- components.rs: ComponentTuple::component_indices for a tuple, the
macro-generated vec! of get_or_register calls in tuple order, threading the
registry left to right. -/
def registerAll (r : ComponentTypeIndexRegistry) : List Nat → ComponentTypeIndexRegistry × List Nat
  | [] => (r, [])
  | ty :: tys =>
    let p1 := r.get_or_register ty
    let p2 := registerAll p1.1 tys
    (p2.1, p1.2 :: p2.2)

/-- A type-erased storage column, components.rs: Box<dyn ComponentStorage>
holding a Vec<T>. tyId is the TypeId of the element type T, data the stored
values. -/
structure Column where
  tyId : Nat
  data : List Nat
deriving DecidableEq

/-- components.rs: ComponentStorage::push_from_other for Vec<T>. The downcast
of the carrier to Vec<T> panics (none) unless the carrier element type equals
this column element type; remove(0) panics (none) on an empty carrier;
otherwise the carrier head is appended to this column. -/
def Column.push_from_other (c : Column) (other : Column) : Option Column :=
  if other.tyId = c.tyId then
    match other.data with
    | [] => none
    | v :: _ => some ⟨c.tyId, c.data ++ [v]⟩
  else none

/-- components.rs: ComponentTypeIndexRegistry::create_empty_column. Invoked
only under the Archetype::new assert index < len, where getD is exact. -/
def ComponentTypeIndexRegistry.create_empty_column (r : ComponentTypeIndexRegistry)
    (index : Nat) : Column :=
  ⟨r.type_to_index.getD index 0, []⟩

/-- archetypes.rs: struct ArchetypeKey(Vec<usize>). -/
abbrev ArchetypeKey := List Nat

/-- Ascending insertion of one element, used to model Vec::sort_unstable. -/
def insertSorted (x : Nat) : List Nat → List Nat
  | [] => [x]
  | y :: ys => if x ≤ y then x :: y :: ys else y :: insertSorted x ys

/-- Ascending sort modelling Vec::sort_unstable on the index list. -/
def sortIndices : List Nat → List Nat
  | [] => []
  | x :: xs => insertSorted x (sortIndices xs)

/-- archetypes.rs: ArchetypeKey::new_sorted. -/
def ArchetypeKey.new_sorted (indices : List Nat) : ArchetypeKey :=
  sortIndices indices

/-- archetypes.rs: struct Archetype { components: Vec<Option<Box<dyn
ComponentStorage>>>, entities: Vec<EntityId> }. -/
structure Archetype where
  components : List (Option Column)
  entities : List EntityId
deriving DecidableEq

/-- The slot array built by Archetype::new: a vector of registry-len None
slots, with slot i set to an empty column of the i-th registered type for each
i in component_indices. -/
def mkCols (r : ComponentTypeIndexRegistry) (component_indices : List Nat) :
    List (Option Column) :=
  component_indices.foldl (fun cols i => cols.set i (some (r.create_empty_column i)))
    (List.replicate r.len none)

/-- archetypes.rs: Archetype::new. The assert that every component index is
below the registry length is modelled by the none branch. -/
def Archetype.new (component_indices : List Nat) (r : ComponentTypeIndexRegistry) :
    Option Archetype :=
  if component_indices.all (fun i => i < r.len) then
    some ⟨mkCols r component_indices, []⟩
  else none

/-- archetypes.rs: Archetype::get_column::<T>(index). Returns the column data
when the slot exists, is populated, and the downcast to Vec<T> succeeds
(element type matches), else None. -/
def Archetype.get_column (a : Archetype) (ty : Nat) (index : Nat) : Option (List Nat) :=
  match a.components[index]? with
  | some (some col) => if col.tyId = ty then some col.data else none
  | _ => none

/-- The column-update loop of Archetype::insert: for the i-th component index,
push the i-th carrier into that slot. Direct indexing of the carriers
(components[i]) and of the slot array, the expect on an empty slot, and the
panics inside push_from_other are all modelled as none. -/
def insertCols : List (Option Column) → List Nat → List Column → Option (List (Option Column))
  | cols, [], _ => some cols
  | _, _ :: _, [] => none
  | cols, storage :: restIdx, carrier :: restCar =>
    match cols[storage]? with
    | some (some column) =>
      match column.push_from_other carrier with
      | some column2 => insertCols (cols.set storage (some column2)) restIdx restCar
      | none => none
    | some none => none
    | none => none

/-- archetypes.rs: Archetype::insert. Appends the entity to the row list and
pushes each carried component value into the column named by its index. -/
def Archetype.insert (a : Archetype) (entity : EntityId) (component_indices : List Nat)
    (components : List Column) : Option Archetype :=
  (insertCols a.components component_indices components).map
    (fun cols => ⟨cols, a.entities ++ [entity]⟩)

/-- The linear scan of World::find_or_create_archetype: position of the first
archetype whose key equals the probe key. -/
def findArchetype : List (ArchetypeKey × Archetype) → ArchetypeKey → Option Nat
  | [], _ => none
  | ka :: rest, key => if ka.1 = key then some 0 else (findArchetype rest key).map (· + 1)

/-- lib.rs: World::find_or_create_archetype, over the archetype list and
registry it reads. Returns the archetype list and the resolved index; none
models the Archetype::new assert panic. -/
def find_or_create_archetype (archetypes : List (ArchetypeKey × Archetype))
    (r : ComponentTypeIndexRegistry) (key : ArchetypeKey) (component_indices : List Nat) :
    Option (List (ArchetypeKey × Archetype) × Nat) :=
  match findArchetype archetypes key with
  | some i => some (archetypes, i)
  | none =>
    (Archetype.new component_indices r).map
      (fun arch => (archetypes ++ [(key, arch)], archetypes.length))

/-- Vec::resize_with(new_len, || None): truncates when new_len is below the
current length, else appends None slots. -/
def resizeWith (l : List (Option α)) (n : Nat) : List (Option α) :=
  if n ≤ l.length then l.take n else l ++ List.replicate (n - l.length) none

/-- lib.rs: struct World. -/
structure World where
  archetypes : List (ArchetypeKey × Archetype)
  type_registry : ComponentTypeIndexRegistry
  entity_allocator : EntityAllocator
  entity_location_map : List (Option (Nat × Nat))
deriving DecidableEq

/-- lib.rs: World::new. -/
def World.new : World :=
  ⟨[], ComponentTypeIndexRegistry.new, EntityAllocator.new, []⟩

/-- lib.rs: World::spawn. The spawned tuple is modelled as a list of
(TypeId, value) pairs in tuple order; into_components yields one
single-element carrier column per pair. none models any internal panic. -/
def World.spawn (w : World) (comps : List (Nat × Nat)) : Option (World × EntityId) :=
  match w.entity_allocator.allocate with
  | none => none
  | some (alloc1, entity) =>
    let rp := registerAll w.type_registry (comps.map Prod.fst)
    let component_data : List Column := comps.map (fun p => ⟨p.1, [p.2]⟩)
    let layout_key := ArchetypeKey.new_sorted rp.2
    match find_or_create_archetype w.archetypes rp.1 layout_key rp.2 with
    | none => none
    | some (archetypes1, archetype_index) =>
      match archetypes1[archetype_index]? with
      | none => none
      | some (key, archetype) =>
        match archetype.insert entity rp.2 component_data with
        | none => none
        | some archetype1 =>
          some
            ({ archetypes := archetypes1.set archetype_index (key, archetype1),
               type_registry := rp.1,
               entity_allocator := alloc1,
               entity_location_map :=
                 (resizeWith w.entity_location_map (entity.index + 1)).set entity.index
                   (some (archetype_index, archetype.entities.length)) },
             entity)

/-- lib.rs: World::get_component::<T>. The outer none models a panic (the
unwrap on an unregistered type, the unwrap on a missing or empty location slot,
or the direct archetype indexing); some carries the returned Option<&T>. -/
def World.get_component (w : World) (ty : Nat) (entity : EntityId) : Option (Option Nat) :=
  match w.type_registry.get_index ty with
  | none => none
  | some index =>
    match w.entity_location_map[entity.index]? with
    | none => none
    | some none => none
    | some (some (archetype_index, row)) =>
      match w.archetypes[archetype_index]? with
      | none => none
      | some (_, archetype) =>
        some ((archetype.get_column ty index).bind (fun vec => vec[row]?))

/-- Evaluate a fallible lookup on each element in order, failing the whole list
on the first none (the macro-generated sequence of ? operators). -/
def optionMap (f : α → Option β) : List α → Option (List β)
  | [] => some []
  | x :: xs =>
    match f x with
    | none => none
    | some b =>
      match optionMap f xs with
      | none => none
      | some bs => some (b :: bs)

/-- A query request: one (TypeId, mutable?) access spec per tuple position,
arity 1..4 in the generated impls (ecs_macros impl_query_combinations). -/
abbrev QueryReq := List (Nat × Bool)

/-- ecs_macros: the indices vector of query_archetype, one
registry.get_index(TypeId::of::<Ti>())? per requested type. -/
def resolveIndices (r : ComponentTypeIndexRegistry) (q : QueryReq) : Option (List Nat) :=
  optionMap (fun p => r.get_index p.1) q

/-- Minimum column length, the number of rows a lock-step zip of iterators
yields. -/
def minLen : List (List Nat) → Nat
  | [] => 0
  | c :: cs => cs.foldl (fun m d => Nat.min m d.length) c.length

/-- The zipped row sequence produced by the generated iterator chain: row r of
every fetched column, for r below every column length. -/
def zipRows (cols : List (List Nat)) : List (List Nat) :=
  (List.range (minLen cols)).map (fun r => cols.map (fun c => c.getD r 0))

/-- ecs_macros impl_query_combinations: query_archetype. Resolves every
requested type to a registry index (whole archetype fails on any unregistered
type), fetches every column (whole archetype fails on any absent column or
failed downcast; mutability only selects get_column versus get_column_mut,
whose presence behaviour is identical), and zips the columns row by row. -/
def query_archetype (q : QueryReq) (a : Archetype) (r : ComponentTypeIndexRegistry) :
    Option (List (List Nat)) :=
  match resolveIndices r q with
  | none => none
  | some indices =>
    match optionMap (fun pi => a.get_column pi.1.1 pi.2) (q.zip indices) with
    | none => none
    | some cols => some (zipRows cols)

/-- Concatenation of the per-archetype iterators (flat_map). -/
def flattenAll : List (List α) → List α
  | [] => []
  | l :: ls => l ++ flattenAll ls

/-- lib.rs: World::query. filter_map of query_archetype over the archetype
list, flattened. -/
def World.query (w : World) (q : QueryReq) : List (List Nat) :=
  flattenAll (w.archetypes.filterMap (fun ka => query_archetype q ka.2 w.type_registry))

/-- Run a list of spawn calls from a given world, collecting the returned
entity handles; none when any spawn panics. -/
def spawnSeq (w : World) : List (List (Nat × Nat)) → Option (World × List EntityId)
  | [] => some (w, [])
  | c :: cs =>
    match w.spawn c with
    | none => none
    | some (w1, e) =>
      match spawnSeq w1 cs with
      | none => none
      | some (w2, es) => some (w2, e :: es)

/-- Worlds reachable from World::new by spawn calls alone. -/
inductive Reachable : World → Prop
  | base : Reachable World.new
  | step {w w2 : World} {comps : List (Nat × Nat)} {e : EntityId} :
      Reachable w → w.spawn comps = some (w2, e) → Reachable w2

/-- Worlds reachable from World::new by spawn calls whose component types are
pairwise distinct within each call. -/
inductive ReachableND : World → Prop
  | base : ReachableND World.new
  | step {w w2 : World} {comps : List (Nat × Nat)} {e : EntityId} :
      ReachableND w → (comps.map Prod.fst).Nodup → w.spawn comps = some (w2, e) → ReachableND w2

/-- Check that no borrowed column position is shared between two request
positions of which at least one is mutable. Input: (mutable?, resolved
index) per request position. -/
def noAliasPairs : List (Bool × Nat) → Bool
  | [] => true
  | (m, i) :: rest =>
    rest.all (fun p => !(i == p.2) || (!m && !p.1)) && noAliasPairs rest

/-- Whether the columns borrowed by query_archetype for one archetype are free
of aliasing between a mutable borrow and any other borrow of the same query. -/
def mutBorrowsAliasFree (r : ComponentTypeIndexRegistry) (q : QueryReq) : Bool :=
  match resolveIndices r q with
  | none => true
  | some indices => noAliasPairs ((q.map Prod.snd).zip indices)

/-- Structural invariant of one archetype table against the current registry:
the key lists exactly the populated slots, each populated slot stores the
registered type of its index, and no populated column is shorter than the row
list. -/
structure ArchInv (R : List Nat) (key : ArchetypeKey) (a : Archetype) : Prop where
  keyMem : ∀ i, i ∈ key ↔ ∃ c : Column, a.components[i]? = some (some c)
  colTy : ∀ (i : Nat) (c : Column), a.components[i]? = some (some c) → R[i]? = some c.tyId
  colLenGe : ∀ (i : Nat) (c : Column), a.components[i]? = some (some c) → a.entities.length ≤ c.data.length

/-- Invariant of every world reachable by spawns alone. -/
structure WInv (w : World) : Prop where
  freeNil : w.entity_allocator.free_list = []
  genLen : w.entity_allocator.generations.length = w.entity_location_map.length
  regNodup : w.type_registry.type_to_index.Nodup
  keysNodup : (w.archetypes.map Prod.fst).Nodup
  archs : ∀ (ai : Nat) (ka : ArchetypeKey × Archetype), w.archetypes[ai]? = some ka →
    ArchInv w.type_registry.type_to_index ka.1 ka.2
  locMap : ∀ (ix : Nat) (loc : Option (Nat × Nat)), w.entity_location_map[ix]? = some loc →
    ∃ ai row, loc = some (ai, row) ∧
      ∃ ka : ArchetypeKey × Archetype, w.archetypes[ai]? = some ka ∧ row < ka.2.entities.length

/-- Exact column-length invariant: every populated column of every archetype
has exactly one value per row. Holds for duplicate-free spawn histories. -/
def colExact (w : World) : Prop :=
  ∀ (ai : Nat) (ka : ArchetypeKey × Archetype), w.archetypes[ai]? = some ka →
    ∀ (i : Nat) (c : Column), ka.2.components[i]? = some (some c) → c.data.length = ka.2.entities.length


/-! List helper lemmas used throughout. -/

theorem lget_set {α : Type} (l : List α) (j : Nat) (v : α) (i : Nat) :
    (l.set j v)[i]? = if j = i ∧ j < l.length then some v else l[i]? := by
  by_cases hji : j = i
  · subst hji
    by_cases hlt : j < l.length
    · simp [List.getElem?_set_self, hlt]
    · rw [List.set_eq_of_length_le (by omega)]
      simp [hlt]
  · simp [hji, List.getElem?_set_ne]

theorem lget_some_lt {α : Type} {l : List α} {i : Nat} {a : α} (h : l[i]? = some a) :
    i < l.length :=
  (List.getElem?_eq_some.mp h).1

theorem lget_exists {α : Type} {l : List α} {i : Nat} (h : i < l.length) :
    ∃ a : α, l[i]? = some a :=
  ⟨l.get ⟨i, h⟩, List.getElem?_eq_getElem h⟩

theorem lmem_iff_get {α : Type} {l : List α} {a : α} : a ∈ l ↔ ∃ i : Nat, l[i]? = some a := by
  constructor
  · intro h
    obtain ⟨i, hi⟩ := List.mem_iff_getElem.mp h
    exact ⟨i, by rw [List.getElem?_eq_getElem hi.1, hi.2]⟩
  · rintro ⟨i, hi⟩
    obtain ⟨hlt, hv⟩ := List.getElem?_eq_some.mp hi
    exact hv ▸ List.getElem_mem hlt

theorem lnodup_concat {α : Type} {l : List α} {a : α} (hl : l.Nodup) (ha : a ∉ l) :
    (l ++ [a]).Nodup := by
  simp only [List.nodup_append, List.nodup_cons, List.not_mem_nil, not_false_iff,
    List.nodup_nil, and_true, true_and]
  refine ⟨hl, ?_⟩
  intro x hx hxa
  simp only [List.mem_singleton] at hxa
  exact ha (hxa ▸ hx)

/-! Allocator lemmas. -/

theorem allocate_gen {a a1 : EntityAllocator} {h : EntityId}
    (ha : a.allocate = some (a1, h)) :
    a1.generations[h.index]? = some h.generation ∧
      (∀ (i g : Nat), a.generations[i]? = some g → a1.generations[i]? = some g) := by
  unfold EntityAllocator.allocate at ha
  split at ha
  · split at ha
    · injection ha with ha1
      injection ha1 with hw he
      subst hw; subst he
      rename_i index rest generation hgi
      exact ⟨hgi, fun i g hg => hg⟩
    · exact absurd ha (by simp)
  · injection ha with ha1
    injection ha1 with hw he
    subst hw; subst he
    refine ⟨List.getElem?_concat_length _ _, ?_⟩
    intro i g hg
    rw [List.getElem?_append_left (lget_some_lt hg)]; exact hg

theorem allocate_shape {a a1 : EntityAllocator} {h : EntityId}
    (ha : a.allocate = some (a1, h)) :
    (h.index = a.generations.length ∧ h.generation = 0 ∧
        a1.generations = a.generations ++ [0]) ∨
      a1.generations = a.generations := by
  unfold EntityAllocator.allocate at ha
  split at ha
  · split at ha
    · injection ha with ha1
      injection ha1 with hw he
      subst hw
      exact Or.inr rfl
    · exact absurd ha (by simp)
  · injection ha with ha1
    injection ha1 with hw he
    subst hw; subst he
    exact Or.inl ⟨rfl, rfl, rfl⟩

theorem deallocate_shape {a a2 : EntityAllocator} {e : EntityId}
    (hd : a.deallocate e = some a2) :
    (a.generations[e.index]? = some e.generation ∧
        a2 = ⟨a.generations.set e.index (e.generation + 1), e.index :: a.free_list⟩) ∨
      a2 = a := by
  unfold EntityAllocator.deallocate at hd
  split at hd
  · exact absurd hd (by simp)
  · rename_i g hgi
    split at hd
    · rename_i hmatch
      injection hd with hd1
      subst hd1
      exact Or.inl ⟨by rw [hgi, hmatch], by rw [hmatch]⟩
    · injection hd with hd1
      subst hd1
      exact Or.inr rfl

theorem step_mono {a a1 : EntityAllocator} {op : AllocOp}
    (hs : AllocOp.step a op = some a1) :
    ∀ (i g : Nat), a.generations[i]? = some g → ∃ g1, a1.generations[i]? = some g1 ∧ g ≤ g1 := by
  intro i g hg
  cases op with
  | alloc =>
    simp only [AllocOp.step, Option.map_eq_some'] at hs
    obtain ⟨⟨a2, e⟩, ha, hfst⟩ := hs
    subst hfst
    exact ⟨g, (allocate_gen ha).2 i g hg, Nat.le_refl g⟩
  | dealloc e =>
    simp only [AllocOp.step] at hs
    rcases deallocate_shape hs with ⟨hgen, hshape⟩ | hshape
    · subst hshape
      simp only [lget_set]
      by_cases hei : e.index = i
      · subst hei
        rw [hg] at hgen
        injection hgen with hgen1
        refine ⟨e.generation + 1, ?_, by omega⟩
        simp [lget_some_lt hg]
      · exact ⟨g, by simp [hei, hg], Nat.le_refl g⟩
    · subst hshape
      exact ⟨g, hg, Nat.le_refl g⟩

theorem runOps_mono {a a1 : EntityAllocator} {ops : List AllocOp}
    (hs : runOps a ops = some a1) :
    ∀ (i g : Nat), a.generations[i]? = some g → ∃ g1, a1.generations[i]? = some g1 ∧ g ≤ g1 := by
  induction ops generalizing a with
  | nil =>
    intro i g hg
    simp only [runOps] at hs
    injection hs with hs1
    subst hs1
    exact ⟨g, hg, Nat.le_refl g⟩
  | cons op ops2 ih =>
    intro i g hg
    simp only [runOps] at hs
    split at hs
    · rename_i a2 hstep
      obtain ⟨g2, hg2, hle2⟩ := step_mono hstep i g hg
      obtain ⟨g1, hg1, hle1⟩ := ih hs i g2 hg2
      exact ⟨g1, hg1, Nat.le_trans hle2 hle1⟩
    · exact absurd hs (by simp)

theorem is_alive_false_of_gt {a : EntityAllocator} {e : EntityId} {g : Nat}
    (hg : a.generations[e.index]? = some g) (hlt : e.generation < g) :
    a.is_alive e = false := by
  simp only [EntityAllocator.is_alive, hg]
  simp only [beq_eq_false_iff_ne, ne_eq]
  omega

/-- C4: for every allocator state, after allocate() yields handle h and
deallocate(h) is performed, is_alive(h) is false; any subsequent allocate()
(after any further successful allocator operations) that reuses h.index yields
a handle whose generation is strictly greater than h.generation, and
is_alive(h) remains false both before and after that reuse. -/
theorem generational_safety (a a1 a2 a3 a4 : EntityAllocator) (h h2 : EntityId)
    (ops : List AllocOp)
    (halloc : a.allocate = some (a1, h))
    (hdealloc : a1.deallocate h = some a2)
    (hops : runOps a2 ops = some a3)
    (halloc2 : a3.allocate = some (a4, h2))
    (hidx : h2.index = h.index) :
    a2.is_alive h = false ∧ h.generation < h2.generation ∧ a3.is_alive h = false ∧
      a4.is_alive h = false := by
  have hgen1 : a1.generations[h.index]? = some h.generation := (allocate_gen halloc).1
  have hshape2 : a2 = ⟨a1.generations.set h.index (h.generation + 1), h.index :: a1.free_list⟩ := by
    rcases deallocate_shape hdealloc with ⟨_, hs⟩ | hs
    · exact hs
    · subst hs
      unfold EntityAllocator.deallocate at hdealloc
      rw [hgen1] at hdealloc
      simp only [if_pos rfl] at hdealloc
      injection hdealloc with hd1
      exact hd1.symm
  have hgen2 : a2.generations[h.index]? = some (h.generation + 1) := by
    rw [hshape2]
    simp [lget_set, lget_some_lt hgen1]
  obtain ⟨g3, hg3, hle3⟩ := runOps_mono hops h.index (h.generation + 1) hgen2
  have halive2 : a2.is_alive h = false := is_alive_false_of_gt hgen2 (Nat.lt_succ_self _)
  have halive3 : a3.is_alive h = false := is_alive_false_of_gt hg3 (by omega)
  have hrest : h.generation < h2.generation ∧ a4.generations = a3.generations := by
    unfold EntityAllocator.allocate at halloc2
    split at halloc2
    · split at halloc2
      · rename_i index rest hfl xg generation hgi
        injection halloc2 with hp
        injection hp with hw he
        constructor
        · have hieq : index = h.index := by rw [← hidx, ← he]
          rw [hieq, hg3] at hgi
          injection hgi with hgi1
          have hg2gen : h2.generation = generation := by rw [← he]
          omega
        · rw [← hw]
      · exact absurd halloc2 (by simp)
    · injection halloc2 with hp
      injection hp with hw he
      have hidx2 : h2.index = a3.generations.length := by rw [← he]
      have hlt : h.index < a3.generations.length := lget_some_lt hg3
      omega
  refine ⟨halive2, hrest.1, halive3, ?_⟩
  rw [EntityAllocator.is_alive, hrest.2]
  rw [EntityAllocator.is_alive] at halive3
  exact halive3

/-- C4 witness: a concrete allocate, deallocate, allocate chain through index
0, exercising generational_safety. -/
theorem generational_safety_witness :
    EntityAllocator.new.allocate = some (⟨[0], []⟩, ⟨0, 0⟩) ∧
      EntityAllocator.deallocate ⟨[0], []⟩ ⟨0, 0⟩ = some ⟨[1], [0]⟩ ∧
      runOps ⟨[1], [0]⟩ [] = some ⟨[1], [0]⟩ ∧
      EntityAllocator.allocate ⟨[1], [0]⟩ = some (⟨[1], []⟩, ⟨0, 1⟩) ∧
      (EntityAllocator.is_alive ⟨[1], [0]⟩ ⟨0, 0⟩ = false ∧ (0 : Nat) < 1 ∧
        EntityAllocator.is_alive ⟨[1], [0]⟩ ⟨0, 0⟩ = false ∧
        EntityAllocator.is_alive ⟨[1], []⟩ ⟨0, 0⟩ = false) :=
  ⟨rfl, rfl, rfl, rfl,
    generational_safety EntityAllocator.new ⟨[0], []⟩ ⟨[1], [0]⟩ ⟨[1], [0]⟩ ⟨[1], []⟩
      ⟨0, 0⟩ ⟨0, 1⟩ [] rfl rfl rfl rfl rfl⟩

/-- C3 counterexample: deallocate on a handle whose index was never allocated
is not a no-op: the direct indexing self.generations[index] panics (modelled
none) on the empty allocator. -/
theorem deallocate_unknown_panics :
    EntityAllocator.new.deallocate ⟨0, 0⟩ = none := rfl

/-- C3 amended: is_alive on a handle whose index was never allocated returns
false without failing; deallocate on a handle whose index is allocated but
whose generation does not match is a no-op; but deallocate on a handle whose
index was never allocated panics (index out of bounds), modelled none. -/
theorem deallocate_is_alive_policy (a : EntityAllocator) (e : EntityId) :
    (a.generations[e.index]? = none → a.is_alive e = false ∧ a.deallocate e = none) ∧
    (∀ g : Nat, a.generations[e.index]? = some g → g ≠ e.generation →
      a.deallocate e = some a) := by
  constructor
  · intro hnone
    constructor
    · simp [EntityAllocator.is_alive, hnone]
    · simp [EntityAllocator.deallocate, hnone]
  · intro g hg hne
    simp [EntityAllocator.deallocate, hg, hne]

/-- C3 amended witness: the unknown-index branch on a one-slot allocator at
index 1, and the mismatched-generation no-op branch at index 0. -/
theorem deallocate_is_alive_policy_witness :
    ((⟨[5], []⟩ : EntityAllocator).generations[(1 : Nat)]? = none ∧
      (EntityAllocator.is_alive ⟨[5], []⟩ ⟨1, 0⟩ = false ∧
        EntityAllocator.deallocate ⟨[5], []⟩ ⟨1, 0⟩ = none)) ∧
      ((⟨[5], []⟩ : EntityAllocator).generations[(0 : Nat)]? = some 5 ∧
        EntityAllocator.deallocate ⟨[5], []⟩ ⟨0, 3⟩ = some ⟨[5], []⟩) :=
  ⟨⟨rfl, (deallocate_is_alive_policy ⟨[5], []⟩ ⟨1, 0⟩).1 rfl⟩,
    ⟨rfl, (deallocate_is_alive_policy ⟨[5], []⟩ ⟨0, 3⟩).2 5 rfl (by decide)⟩⟩

/-- C9: World::get_component never consults the handle generation: two handles
with equal index receive equal answers in every world state, so a stale handle
whose index location is populated is answered as if it were alive. -/
theorem get_component_ignores_generation (w : World) (ty : Nat) (e1 e2 : EntityId)
    (h : e1.index = e2.index) : w.get_component ty e1 = w.get_component ty e2 := by
  unfold World.get_component
  rw [h]

/-- C9 witness: in a one-entity world, the live handle (0,0) and the stale
handle (0,9) of the same index receive the same get_component answer. -/
theorem get_component_ignores_generation_witness :
    (⟨0, 0⟩ : EntityId).index = (⟨0, 9⟩ : EntityId).index ∧
      World.get_component
        ⟨[([0], ⟨[some ⟨0, [10]⟩], [⟨0, 0⟩]⟩)], ⟨[0]⟩, ⟨[1], [0]⟩, [some (0, 0)]⟩ 0 ⟨0, 0⟩ =
      World.get_component
        ⟨[([0], ⟨[some ⟨0, [10]⟩], [⟨0, 0⟩]⟩)], ⟨[0]⟩, ⟨[1], [0]⟩, [some (0, 0)]⟩ 0 ⟨0, 9⟩ :=
  ⟨rfl, get_component_ignores_generation _ 0 ⟨0, 0⟩ ⟨0, 9⟩ rfl⟩

/-! Registry lemmas: properties of the iterator-position lookup and of
get_or_register / registerAll. -/

theorem giL_none_iff {ty : Nat} {l : List Nat} : get_index_list ty l = none ↔ ty ∉ l := by
  induction l with
  | nil => simp [get_index_list]
  | cons x xs ih =>
    simp only [get_index_list, List.mem_cons]
    by_cases hx : x = ty
    · simp [hx]
    · rw [if_neg hx]
      cases hr : get_index_list ty xs with
      | none =>
        simp only [Option.map_none']
        constructor
        · intro _ hmem
          rcases hmem with hyx | hmem2
          · exact hx hyx.symm
          · exact (ih.mp hr) hmem2
        · intro _
          trivial
      | some i =>
        simp only [Option.map_some']
        constructor
        · intro hsome
          cases hsome
        · intro hnot
          exfalso
          have hmem : ty ∈ xs := by
            by_contra hm
            rw [ih.mpr hm] at hr
            cases hr
          exact hnot (Or.inr hmem)

theorem giL_get {ty : Nat} {l : List Nat} {i : Nat} (h : get_index_list ty l = some i) :
    l[i]? = some ty := by
  induction l generalizing i with
  | nil => simp [get_index_list] at h
  | cons x xs ih =>
    by_cases hx : x = ty
    · simp only [get_index_list, if_pos hx] at h
      injection h with h1
      subst h1
      simp [hx]
    · simp only [get_index_list, if_neg hx, Option.map_eq_some'] at h
      obtain ⟨i2, hi2, hplus⟩ := h
      subst hplus
      simpa using ih hi2

theorem giL_lt {ty : Nat} {l : List Nat} {i : Nat} (h : get_index_list ty l = some i) :
    i < l.length :=
  lget_some_lt (giL_get h)

theorem giL_append_left {ty : Nat} {l : List Nat} {i : Nat} (l2 : List Nat)
    (h : get_index_list ty l = some i) : get_index_list ty (l ++ l2) = some i := by
  induction l generalizing i with
  | nil => simp [get_index_list] at h
  | cons x xs ih =>
    by_cases hx : x = ty
    · simp only [get_index_list, if_pos hx] at h ⊢
      exact h
    · simp only [get_index_list, if_neg hx, Option.map_eq_some'] at h
      obtain ⟨i2, hi2, hplus⟩ := h
      subst hplus
      rw [List.cons_append]
      have hstep : get_index_list ty (x :: (xs ++ l2)) =
          (get_index_list ty (xs ++ l2)).map (· + 1) := by
        simp [get_index_list, hx]
      rw [hstep, ih hi2]
      rfl

theorem giL_append_fresh {ty : Nat} {l : List Nat} (h : ty ∉ l) :
    get_index_list ty (l ++ [ty]) = some l.length := by
  induction l with
  | nil => simp [get_index_list]
  | cons x xs ih =>
    simp only [List.mem_cons, not_or] at h
    have hx : ¬x = ty := fun hxy => h.1 hxy.symm
    rw [List.cons_append]
    have hstep : get_index_list ty (x :: (xs ++ [ty])) =
        (get_index_list ty (xs ++ [ty])).map (· + 1) := by
      simp [get_index_list, hx]
    rw [hstep, ih h.2]
    rfl

theorem giL_of_nodup {ty : Nat} {l : List Nat} {i : Nat} (hnd : l.Nodup)
    (h : l[i]? = some ty) : get_index_list ty l = some i := by
  induction l generalizing i with
  | nil => simp at h
  | cons x xs ih =>
    simp only [List.nodup_cons] at hnd
    cases i with
    | zero =>
      simp only [List.getElem?_cons_zero] at h
      injection h with h1
      simp [get_index_list, h1]
    | succ i2 =>
      simp only [List.getElem?_cons_succ] at h
      have hmem : ty ∈ xs := lmem_iff_get.mpr ⟨i2, h⟩
      have hx : ¬x = ty := fun hxy => hnd.1 (hxy ▸ hmem)
      have hstep : get_index_list ty (x :: xs) =
          (get_index_list ty xs).map (· + 1) := by
        simp [get_index_list, hx]
      rw [hstep, ih hnd.2 h]
      rfl

theorem gor_found {r : ComponentTypeIndexRegistry} {ty : Nat} {i : Nat}
    (h : r.get_index ty = some i) : r.get_or_register ty = (r, i) := by
  unfold ComponentTypeIndexRegistry.get_or_register
  rw [h]

theorem gor_fresh {r : ComponentTypeIndexRegistry} {ty : Nat}
    (h : r.get_index ty = none) :
    r.get_or_register ty = (⟨r.type_to_index ++ [ty]⟩, r.type_to_index.length) := by
  unfold ComponentTypeIndexRegistry.get_or_register
  rw [h]

theorem gor_self {r : ComponentTypeIndexRegistry} {ty : Nat} :
    (r.get_or_register ty).1.get_index ty = some (r.get_or_register ty).2 := by
  cases hgi : r.get_index ty with
  | some i => rw [gor_found hgi]; exact hgi
  | none =>
    rw [gor_fresh hgi]
    exact giL_append_fresh (giL_none_iff.mp hgi)

theorem gor_ext {r : ComponentTypeIndexRegistry} {ty : Nat} :
    ∃ ext : List Nat, (r.get_or_register ty).1.type_to_index = r.type_to_index ++ ext := by
  cases hgi : r.get_index ty with
  | some i => rw [gor_found hgi]; exact ⟨[], by simp⟩
  | none => rw [gor_fresh hgi]; exact ⟨[ty], rfl⟩

theorem gor_nodup {r : ComponentTypeIndexRegistry} {ty : Nat}
    (h : r.type_to_index.Nodup) : (r.get_or_register ty).1.type_to_index.Nodup := by
  cases hgi : r.get_index ty with
  | some i => rw [gor_found hgi]; exact h
  | none => rw [gor_fresh hgi]; exact lnodup_concat h (giL_none_iff.mp hgi)

theorem registerAll_ext (r : ComponentTypeIndexRegistry) (tys : List Nat) :
    ∃ ext : List Nat, (registerAll r tys).1.type_to_index = r.type_to_index ++ ext := by
  induction tys generalizing r with
  | nil => exact ⟨[], by simp [registerAll]⟩
  | cons ty tys2 ih =>
    obtain ⟨ext1, hext1⟩ := @gor_ext r ty
    obtain ⟨ext2, hext2⟩ := ih (r.get_or_register ty).1
    refine ⟨ext1 ++ ext2, ?_⟩
    show (registerAll (r.get_or_register ty).1 tys2).1.type_to_index = _
    rw [hext2, hext1, List.append_assoc]

theorem registerAll_stable {r : ComponentTypeIndexRegistry} {ty : Nat} {i : Nat}
    (tys : List Nat) (h : r.get_index ty = some i) :
    (registerAll r tys).1.get_index ty = some i := by
  obtain ⟨ext, hext⟩ := registerAll_ext r tys
  unfold ComponentTypeIndexRegistry.get_index at h ⊢
  rw [hext]
  exact giL_append_left ext h

theorem registerAll_nodup {r : ComponentTypeIndexRegistry} (tys : List Nat)
    (h : r.type_to_index.Nodup) : (registerAll r tys).1.type_to_index.Nodup := by
  induction tys generalizing r with
  | nil => exact h
  | cons ty tys2 ih => exact ih (gor_nodup h)

theorem registerAll_len (r : ComponentTypeIndexRegistry) (tys : List Nat) :
    (registerAll r tys).2.length = tys.length := by
  induction tys generalizing r with
  | nil => simp [registerAll]
  | cons ty tys2 ih =>
    show ((r.get_or_register ty).2 :: (registerAll (r.get_or_register ty).1 tys2).2).length = _
    simp [ih]

theorem registerAll_get (r : ComponentTypeIndexRegistry) (tys : List Nat) :
    ∀ (j : Nat) (ty : Nat), tys[j]? = some ty →
      ∃ i : Nat, (registerAll r tys).2[j]? = some i ∧
        (registerAll r tys).1.get_index ty = some i := by
  induction tys generalizing r with
  | nil => intro j ty h; simp at h
  | cons ty0 tys2 ih =>
    intro j ty h
    cases j with
    | zero =>
      simp only [List.getElem?_cons_zero] at h
      injection h with h1
      refine ⟨(r.get_or_register ty0).2, ?_, ?_⟩
      · show ((r.get_or_register ty0).2 :: (registerAll (r.get_or_register ty0).1 tys2).2)[0]? = _
        simp
      · rw [← h1]
        show (registerAll (r.get_or_register ty0).1 tys2).1.get_index ty0 = _
        exact registerAll_stable tys2 gor_self
    | succ j2 =>
      simp only [List.getElem?_cons_succ] at h
      obtain ⟨i, hi, hgi⟩ := ih (r.get_or_register ty0).1 j2 ty h
      refine ⟨i, ?_, hgi⟩
      show ((r.get_or_register ty0).2 :: (registerAll (r.get_or_register ty0).1 tys2).2)[j2+1]? = _
      simpa using hi

/-! Lemmas about optionMap (the chain of fallible lookups in the generated
query code). -/

theorem optionMap_none {α β : Type} {f : α → Option β} {l : List α} {x : α}
    (hmem : x ∈ l) (hf : f x = none) : optionMap f l = none := by
  induction l with
  | nil => cases hmem
  | cons y ys ih =>
    rcases List.mem_cons.mp hmem with hxy | hmem2
    · subst hxy
      simp [optionMap, hf]
    · simp only [optionMap]
      cases hfy : f y with
      | none => rfl
      | some b =>
        rw [ih hmem2]

theorem optionMap_length {α β : Type} {f : α → Option β} {l : List α} {out : List β}
    (h : optionMap f l = some out) : out.length = l.length := by
  induction l generalizing out with
  | nil =>
    simp only [optionMap] at h
    injection h with h1
    subst h1
    rfl
  | cons y ys ih =>
    simp only [optionMap] at h
    split at h
    · exact absurd h (by simp)
    · rename_i b hfy
      split at h
      · exact absurd h (by simp)
      · rename_i bs hbs
        injection h with h1
        subst h1
        simp [ih hbs]

theorem optionMap_get {α β : Type} {f : α → Option β} {l : List α} {out : List β}
    (h : optionMap f l = some out) :
    ∀ (k : Nat) (y : β), out[k]? = some y → ∃ x : α, l[k]? = some x ∧ f x = some y := by
  induction l generalizing out with
  | nil =>
    simp only [optionMap] at h
    injection h with h1
    subst h1
    intro k y hy
    simp at hy
  | cons a ys ih =>
    simp only [optionMap] at h
    split at h
    · exact absurd h (by simp)
    · rename_i b hfy
      split at h
      · exact absurd h (by simp)
      · rename_i bs hbs
        injection h with h1
        subst h1
        intro k y hy
        cases k with
        | zero =>
          simp only [List.getElem?_cons_zero] at hy
          injection hy with hy1
          subst hy1
          exact ⟨a, by simp, hfy⟩
        | succ k2 =>
          simp only [List.getElem?_cons_succ] at hy
          obtain ⟨x, hx, hfx⟩ := ih hbs k2 y hy
          exact ⟨x, by simpa using hx, hfx⟩

theorem optionMap_get_fwd {α β : Type} {f : α → Option β} {l : List α} {out : List β}
    (h : optionMap f l = some out) :
    ∀ (k : Nat) (x : α), l[k]? = some x → ∃ y : β, out[k]? = some y ∧ f x = some y := by
  induction l generalizing out with
  | nil =>
    intro k x hx
    simp at hx
  | cons a ys ih =>
    simp only [optionMap] at h
    split at h
    · exact absurd h (by simp)
    · rename_i b hfy
      split at h
      · exact absurd h (by simp)
      · rename_i bs hbs
        injection h with h1
        subst h1
        intro k x hx
        cases k with
        | zero =>
          simp only [List.getElem?_cons_zero] at hx
          injection hx with hx1
          subst hx1
          exact ⟨b, by simp, hfy⟩
        | succ k2 =>
          simp only [List.getElem?_cons_succ] at hx
          obtain ⟨y, hy, hfx⟩ := ih hbs k2 x hx
          exact ⟨y, by simpa using hy, hfx⟩

theorem optionMap_mem {α β : Type} {f : α → Option β} {l : List α} {out : List β}
    (h : optionMap f l = some out) {y : β} (hy : y ∈ out) :
    ∃ x : α, x ∈ l ∧ f x = some y := by
  obtain ⟨k, hk⟩ := lmem_iff_get.mp hy
  obtain ⟨x, hx, hfx⟩ := optionMap_get h k y hk
  exact ⟨x, lmem_iff_get.mpr ⟨k, hx⟩, hfx⟩

/-! Distinct requested types resolve to pairwise distinct column indices. -/

theorem resolveIndices_nodup {r : ComponentTypeIndexRegistry} {q : QueryReq}
    {idxs : List Nat} (hnd : (q.map Prod.fst).Nodup)
    (hres : resolveIndices r q = some idxs) : idxs.Nodup := by
  induction q generalizing idxs with
  | nil =>
    simp only [resolveIndices, optionMap] at hres
    injection hres with h1
    subst h1
    exact List.nodup_nil
  | cons p q2 ih =>
    simp only [resolveIndices, optionMap] at hres
    split at hres
    · exact absurd hres (by simp)
    · rename_i i hfi
      split at hres
      · exact absurd hres (by simp)
      · rename_i is2 his2
        injection hres with h1
        subst h1
        simp only [List.map_cons, List.nodup_cons] at hnd
        refine List.nodup_cons.mpr ⟨?_, ih hnd.2 his2⟩
        intro hmem
        obtain ⟨p2, hp2mem, hp2i⟩ := optionMap_mem his2 hmem
        have ht1 : r.type_to_index[i]? = some p.1 := giL_get hfi
        have ht2 : r.type_to_index[i]? = some p2.1 := giL_get hp2i
        rw [ht1] at ht2
        injection ht2 with hteq
        exact hnd.1 (hteq ▸ List.mem_map_of_mem Prod.fst hp2mem)

theorem noAliasPairs_of_nodup {ps : List (Bool × Nat)}
    (hnd : (ps.map Prod.snd).Nodup) : noAliasPairs ps = true := by
  induction ps with
  | nil => rfl
  | cons p rest ih =>
    simp only [List.map_cons, List.nodup_cons] at hnd
    cases p with
    | mk m i =>
      simp only [noAliasPairs, Bool.and_eq_true, List.all_eq_true]
      refine ⟨?_, ih hnd.2⟩
      intro p2 hp2
      have hne : i ≠ p2.2 := by
        intro he
        have hm : p2.2 ∈ rest.map Prod.snd := List.mem_map_of_mem Prod.snd hp2
        rw [← he] at hm
        exact hnd.1 hm
      simp [hne]

theorem zip_map_snd {α β : Type} (l1 : List α) (l2 : List β) (h : l1.length = l2.length) :
    (l1.zip l2).map Prod.snd = l2 := by
  induction l1 generalizing l2 with
  | nil =>
    cases l2 with
    | nil => rfl
    | cons y ys => simp at h
  | cons x xs ih =>
    cases l2 with
    | nil => simp at h
    | cons y ys =>
      simp only [List.length_cons] at h
      simp only [List.zip_cons_cons, List.map_cons]
      rw [ih ys (by omega)]

/-- C7: get_or_register returns the same index for a type across all calls for
the lifetime of the registry (directly and after any further registrations),
newly seen types are appended at index len so indices form the dense range
0..len in registration order and the registered list only ever grows (never
reused or removed), and distinct types have distinct indices. -/
theorem registry_stable_indices (r : ComponentTypeIndexRegistry) (ty : Nat) :
    (∀ i : Nat, r.get_index ty = some i →
      (r.get_or_register ty = (r, i) ∧
        ∀ tys : List Nat, (registerAll r tys).1.get_index ty = some i)) ∧
    (r.get_index ty = none →
      r.get_or_register ty = (⟨r.type_to_index ++ [ty]⟩, r.type_to_index.length) ∧
        (r.get_or_register ty).1.get_index ty = some r.type_to_index.length) ∧
    (∀ i : Nat, r.get_index ty = some i → i < r.len) ∧
    (∀ tys : List Nat, ∃ ext : List Nat,
      (registerAll r tys).1.type_to_index = r.type_to_index ++ ext) ∧
    (∀ ty2 i j : Nat, r.get_index ty = some i → r.get_index ty2 = some j →
      ty ≠ ty2 → i ≠ j) := by
  refine ⟨?_, ?_, ?_, registerAll_ext r, ?_⟩
  · intro i hi
    exact ⟨gor_found hi, fun tys => registerAll_stable tys hi⟩
  · intro hnone
    refine ⟨gor_fresh hnone, ?_⟩
    rw [gor_fresh hnone]
    exact giL_append_fresh (giL_none_iff.mp hnone)
  · intro i hi
    exact giL_lt hi
  · intro ty2 i j hi hj hne heq
    subst heq
    have h1 : r.type_to_index[i]? = some ty := giL_get hi
    have h2 : r.type_to_index[i]? = some ty2 := giL_get hj
    rw [h1] at h2
    injection h2 with h3
    exact hne h3

/-- C7 witness: a two-type registry where type 7 keeps index 1 across calls
and registrations, type 9 is freshly appended at index 2, and types 4 and 7
have distinct indices. -/
theorem registry_stable_indices_witness :
    ((⟨[4, 7]⟩ : ComponentTypeIndexRegistry).get_index 7 = some 1 ∧
      (ComponentTypeIndexRegistry.get_or_register ⟨[4, 7]⟩ 7 = (⟨[4, 7]⟩, 1) ∧
        ∀ tys : List Nat, (registerAll ⟨[4, 7]⟩ tys).1.get_index 7 = some 1)) ∧
      ((⟨[4, 7]⟩ : ComponentTypeIndexRegistry).get_index 9 = none ∧
        (ComponentTypeIndexRegistry.get_or_register ⟨[4, 7]⟩ 9 = (⟨[4, 7, 9]⟩, 2) ∧
          (ComponentTypeIndexRegistry.get_or_register ⟨[4, 7]⟩ 9).1.get_index 9 = some 2)) ∧
      ((⟨[4, 7]⟩ : ComponentTypeIndexRegistry).get_index 4 = some 0 ∧ (4 : Nat) ≠ 7 ∧
        (0 : Nat) ≠ 1) :=
  ⟨⟨rfl, (registry_stable_indices ⟨[4, 7]⟩ 7).1 1 rfl⟩,
    ⟨rfl, (registry_stable_indices ⟨[4, 7]⟩ 9).2.1 rfl⟩,
    rfl, by decide,
    (registry_stable_indices ⟨[4, 7]⟩ 4).2.2.2.2 7 0 1 rfl rfl (by decide)⟩

/-- C2 counterexample: the duplicate-type mutable query request (T, T) with T
registered at index 0 is accepted, resolves both positions to registry index
0, yields aliasing mutable column borrows (mutBorrowsAliasFree is false), and
query_archetype still produces the doubly-borrowed iterator. -/
theorem query_alias_counterexample :
    resolveIndices ⟨[7]⟩ [(7, true), (7, true)] = some [0, 0] ∧
      mutBorrowsAliasFree ⟨[7]⟩ [(7, true), (7, true)] = false ∧
      query_archetype [(7, true), (7, true)] ⟨[some ⟨7, [10]⟩], [⟨0, 0⟩]⟩ ⟨[7]⟩ =
        some [[10, 10]] :=
  ⟨rfl, rfl, rfl⟩

/-- C2 amended: distinct component types always map to distinct registry
indices, so for a query whose requested types are pairwise distinct the
columns borrowed simultaneously for one archetype by query_archetype never
alias; a query tuple naming the same type twice, however, is expressible (the
generic impls unify their type parameters) and is not rejected, and does
produce aliasing mutable borrows. -/
theorem query_columns_no_alias (r : ComponentTypeIndexRegistry) (q : QueryReq)
    (idxs : List Nat) (hnd : (q.map Prod.fst).Nodup)
    (hres : resolveIndices r q = some idxs) :
    idxs.Nodup ∧ mutBorrowsAliasFree r q = true := by
  have hnodup := resolveIndices_nodup hnd hres
  refine ⟨hnodup, ?_⟩
  unfold mutBorrowsAliasFree
  rw [hres]
  apply noAliasPairs_of_nodup
  rw [zip_map_snd]
  · exact hnodup
  · have h1 : idxs.length = q.length := optionMap_length hres
    simp [h1]

/-- C2 amended witness: a two-type mutable query over a two-type registry
resolves to the distinct, alias-free column pair (0, 1). -/
theorem query_columns_no_alias_witness :
    (([(3, true), (9, true)] : QueryReq).map Prod.fst).Nodup ∧
      resolveIndices ⟨[3, 9]⟩ [(3, true), (9, true)] = some [0, 1] ∧
      (([0, 1] : List Nat).Nodup ∧
        mutBorrowsAliasFree ⟨[3, 9]⟩ [(3, true), (9, true)] = true) :=
  ⟨by decide, rfl, query_columns_no_alias ⟨[3, 9]⟩ [(3, true), (9, true)] [0, 1] (by decide) rfl⟩

/-! Query failure lemmas. -/

theorem query_archetype_none_unregistered {q : QueryReq} {a : Archetype}
    {r : ComponentTypeIndexRegistry} {p : Nat × Bool} (hmem : p ∈ q)
    (hnone : r.get_index p.1 = none) : query_archetype q a r = none := by
  unfold query_archetype
  rw [show resolveIndices r q = none from optionMap_none hmem hnone]

theorem query_archetype_none_missing {q : QueryReq} {a : Archetype}
    {r : ComponentTypeIndexRegistry} {idxs : List Nat}
    (hres : resolveIndices r q = some idxs) {pi : (Nat × Bool) × Nat}
    (hmem : pi ∈ q.zip idxs) (hcol : a.get_column pi.1.1 pi.2 = none) :
    query_archetype q a r = none := by
  unfold query_archetype
  rw [hres]
  show (match optionMap (fun pi => a.get_column pi.1.1 pi.2) (q.zip idxs) with
    | none => none
    | some cols => some (zipRows cols)) = none
  rw [optionMap_none hmem hcol]

theorem query_empty_unregistered {w : World} {q : QueryReq} {p : Nat × Bool}
    (hmem : p ∈ q) (hnone : w.type_registry.get_index p.1 = none) :
    w.query q = [] := by
  unfold World.query
  have hfm : w.archetypes.filterMap (fun ka => query_archetype q ka.2 w.type_registry) = [] :=
    List.filterMap_eq_nil.mpr (fun ka _ => query_archetype_none_unregistered hmem hnone)
  rw [hfm]
  rfl

/-- C5: query_archetype returns None whenever any requested type was never
registered, and whenever the archetype lacks a column for any requested
type's resolved index; a World query naming an unregistered type yields an
empty result rather than a failure; and in the concrete two-entity world
(entity e1 spawned with component set {0, 1}, entity e2 with {0} only) the
inner join returns e1's row for queries {0}, {1}, {0, 1} (in either order),
returns e2's row only for {0}, and returns nothing for any query naming a
type an entity lacks or a type never registered. -/
theorem query_inner_join :
    (∀ (q : QueryReq) (a : Archetype) (r : ComponentTypeIndexRegistry) (p : Nat × Bool),
      p ∈ q → r.get_index p.1 = none → query_archetype q a r = none) ∧
    (∀ (q : QueryReq) (a : Archetype) (r : ComponentTypeIndexRegistry) (idxs : List Nat),
      resolveIndices r q = some idxs →
      ∀ pi : (Nat × Bool) × Nat, pi ∈ q.zip idxs → a.get_column pi.1.1 pi.2 = none →
        query_archetype q a r = none) ∧
    (∀ (w : World) (q : QueryReq) (p : Nat × Bool),
      p ∈ q → w.type_registry.get_index p.1 = none → w.query q = []) ∧
    (∃ w1 w2 : World, ∃ e1 e2 : EntityId,
      World.new.spawn [(0, 10), (1, 20)] = some (w1, e1) ∧
      w1.spawn [(0, 30)] = some (w2, e2) ∧
      w2.query [(0, false), (1, false)] = [[10, 20]] ∧
      w2.query [(1, false), (0, false)] = [[20, 10]] ∧
      w2.query [(0, false)] = [[10], [30]] ∧
      w2.query [(1, false)] = [[20]] ∧
      w2.query [(0, false), (7, false)] = [] ∧
      w2.query [(7, false)] = []) := by
  refine ⟨?_, ?_, ?_, ?_⟩
  · intro q a r p hmem hnone
    exact query_archetype_none_unregistered hmem hnone
  · intro q a r idxs hres pi hmem hcol
    exact query_archetype_none_missing hres hmem hcol
  · intro w q p hmem hnone
    exact query_empty_unregistered hmem hnone
  · exact ⟨_, _, _, _, rfl, rfl, rfl, rfl, rfl, rfl, rfl, rfl⟩

/-- C5 witness: a query for the never-registered type 7 fails an archetype and
yields an empty World query result. -/
theorem query_inner_join_witness :
    ((7, false) ∈ ([(7, false)] : QueryReq) ∧
      (⟨[]⟩ : ComponentTypeIndexRegistry).get_index 7 = none) ∧
      query_archetype [(7, false)] ⟨[], []⟩ ⟨[]⟩ = none ∧
      World.query ⟨[([0], ⟨[some ⟨0, [5]⟩], [⟨0, 0⟩]⟩)], ⟨[0]⟩, ⟨[0], []⟩, [some (0, 0)]⟩
        [(7, false)] = [] :=
  ⟨⟨by decide, rfl⟩,
    query_inner_join.1 [(7, false)] ⟨[], []⟩ ⟨[]⟩ (7, false) (by decide) rfl,
    query_inner_join.2.2.1
      ⟨[([0], ⟨[some ⟨0, [5]⟩], [⟨0, 0⟩]⟩)], ⟨[0]⟩, ⟨[0], []⟩, [some (0, 0)]⟩
      [(7, false)] (7, false) (by decide) rfl⟩

/-! Sorting, archetype construction and insertion lemmas. -/

theorem mem_insertSorted {x a : Nat} {l : List Nat} :
    a ∈ insertSorted x l ↔ a = x ∨ a ∈ l := by
  induction l with
  | nil => simp [insertSorted]
  | cons y ys ih =>
    by_cases hxy : x ≤ y
    · simp [insertSorted, hxy]
    · simp only [insertSorted, if_neg hxy, List.mem_cons, ih]
      tauto

theorem mem_sortIndices {a : Nat} {l : List Nat} : a ∈ sortIndices l ↔ a ∈ l := by
  induction l with
  | nil => simp [sortIndices]
  | cons x xs ih =>
    simp only [sortIndices, mem_insertSorted, List.mem_cons, ih]

theorem foldlSet_length {β : Type} (f : Nat → β) (idxs : List Nat) (cols : List β) :
    (idxs.foldl (fun cs j => cs.set j (f j)) cols).length = cols.length := by
  induction idxs generalizing cols with
  | nil => rfl
  | cons j rest ih =>
    simp only [List.foldl_cons]
    rw [ih]
    exact List.length_set cols j (f j)

theorem foldlSet_get {β : Type} (f : Nat → β) (idxs : List Nat) (cols : List β) (i : Nat) :
    (idxs.foldl (fun cs j => cs.set j (f j)) cols)[i]? =
      if i ∈ idxs ∧ i < cols.length then some (f i) else cols[i]? := by
  induction idxs generalizing cols with
  | nil => simp
  | cons j rest ih =>
    simp only [List.foldl_cons]
    rw [ih, List.length_set]
    by_cases hmem : i ∈ rest
    · by_cases hlen : i < cols.length
      · simp [hmem, hlen]
      · rw [if_neg (by tauto), if_neg (by simp [hlen]), lget_set, if_neg (by omega)]
    · rw [if_neg (by tauto), lget_set]
      by_cases hji : j = i
      · subst hji
        by_cases hlen : j < cols.length
        · rw [if_pos ⟨rfl, hlen⟩, if_pos ⟨List.mem_cons_self j rest, hlen⟩]
        · rw [if_neg (by tauto), if_neg (by tauto)]
      · rw [if_neg (by tauto), if_neg ?_]
        intro hcon
        rcases List.mem_cons.mp hcon.1 with h1 | h2
        · exact hji h1.symm
        · exact hmem h2

theorem mkCols_get (r : ComponentTypeIndexRegistry) (idxs : List Nat) (i : Nat) :
    (mkCols r idxs)[i]? =
      if i ∈ idxs ∧ i < r.len then some (some (r.create_empty_column i))
      else if i < r.len then some none else none := by
  unfold mkCols
  rw [foldlSet_get]
  rw [List.length_replicate]
  by_cases hc : i ∈ idxs ∧ i < r.len
  · simp [hc]
  · rw [if_neg hc, if_neg hc, List.getElem?_replicate]

theorem mkCols_length (r : ComponentTypeIndexRegistry) (idxs : List Nat) :
    (mkCols r idxs).length = r.len := by
  unfold mkCols
  rw [foldlSet_length, List.length_replicate]

theorem archetype_new_eq {r : ComponentTypeIndexRegistry} {idxs : List Nat}
    (h : ∀ i ∈ idxs, i < r.len) :
    Archetype.new idxs r = some ⟨mkCols r idxs, []⟩ := by
  unfold Archetype.new
  rw [if_pos (List.all_eq_true.mpr (fun i hi => by simpa using h i hi))]

theorem insertCols_strong (idxs : List Nat) (cars : List Column)
    (cols : List (Option Column)) (hlen : idxs.length = cars.length)
    (hcond : ∀ (k s : Nat) (c : Column), idxs[k]? = some s → cars[k]? = some c →
      ∃ col : Column, cols[s]? = some (some col) ∧ col.tyId = c.tyId ∧ c.data ≠ []) :
    ∃ cols2 : List (Option Column),
      insertCols cols idxs cars = some cols2 ∧
      cols2.length = cols.length ∧
      (∀ i : Nat, i ∉ idxs → cols2[i]? = cols[i]?) ∧
      (∀ (i : Nat) (col2 : Column), cols2[i]? = some (some col2) →
        ∃ col : Column, cols[i]? = some (some col) ∧ col2.tyId = col.tyId ∧
          (∃ rest : List Nat, col2.data = col.data ++ rest) ∧
          (i ∈ idxs → col.data.length + 1 ≤ col2.data.length)) ∧
      (∀ (i : Nat) (col : Column), cols[i]? = some (some col) →
        ∃ col2 : Column, cols2[i]? = some (some col2)) := by
  induction idxs generalizing cars cols with
  | nil =>
    refine ⟨cols, rfl, rfl, fun i _ => rfl, ?_, ?_⟩
    · intro i col2 h2
      exact ⟨col2, h2, rfl, ⟨[], by simp⟩, fun hmem => absurd hmem (List.not_mem_nil i)⟩
    · intro i col h2
      exact ⟨col, h2⟩
  | cons s restI ih =>
    cases cars with
    | nil => simp at hlen
    | cons c restC =>
      obtain ⟨col0, hcol, hty, hdata⟩ := hcond 0 s c (by simp) (by simp)
      cases hcd : c.data with
      | nil => exact absurd hcd hdata
      | cons v vrest =>
        have hpush : col0.push_from_other c = some ⟨col0.tyId, col0.data ++ [v]⟩ := by
          unfold Column.push_from_other
          rw [if_pos hty.symm, hcd]
        have hstep : insertCols cols (s :: restI) (c :: restC) =
            insertCols (cols.set s (some ⟨col0.tyId, col0.data ++ [v]⟩)) restI restC := by
          simp only [insertCols, hcol, hpush]
        have hlen2 : restI.length = restC.length := by
          simp only [List.length_cons] at hlen
          omega
        have hcond2 : ∀ (k s2 : Nat) (c2 : Column), restI[k]? = some s2 →
            restC[k]? = some c2 →
            ∃ col3 : Column,
              (cols.set s (some ⟨col0.tyId, col0.data ++ [v]⟩))[s2]? = some (some col3) ∧
                col3.tyId = c2.tyId ∧ c2.data ≠ [] := by
          intro k s2 c2 hk hck
          obtain ⟨col3, hcol3, hty3, hd3⟩ :=
            hcond (k + 1) s2 c2 (by simpa using hk) (by simpa using hck)
          by_cases hs : s = s2
          · subst hs
            rw [hcol] at hcol3
            injection hcol3 with hc3
            injection hc3 with hc3b
            refine ⟨⟨col0.tyId, col0.data ++ [v]⟩, ?_, ?_, hd3⟩
            · rw [lget_set, if_pos ⟨rfl, lget_some_lt hcol⟩]
            · rw [← hc3b] at hty3
              simpa using hty3
          · refine ⟨col3, ?_, hty3, hd3⟩
            rw [lget_set, if_neg (by tauto)]
            exact hcol3
        obtain ⟨cols2, heq, hlength, hnotmem, hback, hfwd⟩ :=
          ih restC (cols.set s (some ⟨col0.tyId, col0.data ++ [v]⟩)) hlen2 hcond2
        refine ⟨cols2, by rw [hstep]; exact heq, by rw [hlength, List.length_set], ?_, ?_, ?_⟩
        · intro i hmem
          simp only [List.mem_cons, not_or] at hmem
          rw [hnotmem i hmem.2, lget_set, if_neg (by tauto)]
        · intro i col2 h2
          obtain ⟨colm, hcolm, htym, ⟨restm, hrestm⟩, hlem⟩ := hback i col2 h2
          rw [lget_set] at hcolm
          by_cases hsi : s = i ∧ s < cols.length
          · rw [if_pos hsi] at hcolm
            injection hcolm with hcm
            injection hcm with hcmb
            obtain ⟨hsi1, hsi2⟩ := hsi
            subst hsi1
            refine ⟨col0, hcol, ?_, ?_, ?_⟩
            · rw [htym, ← hcmb]
            · refine ⟨[v] ++ restm, ?_⟩
              rw [hrestm, ← hcmb]
              simp
            · intro _
              have hl : col2.data.length = (col0.data ++ [v]).length + restm.length := by
                rw [hrestm, ← hcmb, List.length_append]
              rw [hl, List.length_append, List.length_singleton]
              omega
          · rw [if_neg hsi] at hcolm
            refine ⟨colm, hcolm, htym, ⟨restm, hrestm⟩, ?_⟩
            intro hmem
            rcases List.mem_cons.mp hmem with hm1 | hm2
            · exfalso
              apply hsi
              refine ⟨hm1.symm, ?_⟩
              rw [← hm1]
              exact lget_some_lt hcolm
            · exact hlem hm2
        · intro i col hcols
          by_cases hsi : s = i
          · subst hsi
            refine hfwd s ⟨col0.tyId, col0.data ++ [v]⟩ ?_
            rw [lget_set, if_pos ⟨rfl, lget_some_lt hcol⟩]
          · refine hfwd i col ?_
            rw [lget_set, if_neg (by tauto)]
            exact hcols

theorem insertCols_frame (idxs : List Nat) : ∀ (cars : List Column)
    (cols cols2 : List (Option Column)),
    insertCols cols idxs cars = some cols2 →
    ∀ i : Nat, i ∉ idxs → cols2[i]? = cols[i]? := by
  induction idxs with
  | nil =>
    intro cars cols cols2 heq i hmem
    simp only [insertCols] at heq
    injection heq with h
    rw [h]
  | cons s0 restI ih =>
    intro cars cols cols2 heq i hmem
    cases cars with
    | nil =>
      rw [show insertCols cols (s0 :: restI) [] = none from rfl] at heq
      exact Option.noConfusion heq
    | cons c0 restC =>
      simp only [insertCols] at heq
      split at heq
      · rename_i column hcols0
        split at heq
        · rename_i column2 hpush
          simp only [List.mem_cons, not_or] at hmem
          rw [ih restC _ cols2 heq i hmem.2, lget_set, if_neg (by tauto)]
        · exact Option.noConfusion heq
      · exact Option.noConfusion heq
      · exact Option.noConfusion heq

theorem insertCols_nodup_get (idxs : List Nat) : ∀ (cars : List Column)
    (cols cols2 : List (Option Column)), idxs.Nodup →
    insertCols cols idxs cars = some cols2 →
    ∀ (k s : Nat) (c col : Column), idxs[k]? = some s → cars[k]? = some c →
      cols[s]? = some (some col) →
      ∃ v : Nat, ∃ vrest : List Nat, c.data = v :: vrest ∧
        cols2[s]? = some (some ⟨col.tyId, col.data ++ [v]⟩) := by
  induction idxs with
  | nil =>
    intro _ _ _ _ _ k s c col hk
    simp at hk
  | cons s0 restI ih =>
    intro cars cols cols2 hnd heq k s c col hk hck hcols
    cases cars with
    | nil =>
      rw [show insertCols cols (s0 :: restI) [] = none from rfl] at heq
      exact Option.noConfusion heq
    | cons c0 restC =>
      simp only [List.nodup_cons] at hnd
      simp only [insertCols] at heq
      split at heq
      · rename_i column hcols0
        split at heq
        · rename_i column2 hpush
          cases k with
          | zero =>
            simp only [List.getElem?_cons_zero] at hk hck
            injection hk with hk1
            injection hck with hck1
            subst hk1
            subst hck1
            rw [hcols0] at hcols
            injection hcols with hc1
            injection hc1 with hc2
            subst hc2
            unfold Column.push_from_other at hpush
            split at hpush
            · split at hpush
              · exact Option.noConfusion hpush
              · rename_i v vrest hcd
                injection hpush with hp1
                refine ⟨v, vrest, hcd, ?_⟩
                rw [insertCols_frame restI restC _ cols2 heq s0 hnd.1, lget_set,
                  if_pos ⟨rfl, lget_some_lt hcols0⟩, ← hp1]
            · exact Option.noConfusion hpush
          | succ k2 =>
            simp only [List.getElem?_cons_succ] at hk hck
            have hs : s ≠ s0 := fun he => hnd.1 (he ▸ lmem_iff_get.mpr ⟨k2, hk⟩)
            refine ih restC (cols.set s0 (some column2)) cols2 hnd.2 heq k2 s c col hk hck ?_
            rw [lget_set, if_neg (by tauto)]
            exact hcols
        · exact Option.noConfusion heq
      · exact Option.noConfusion heq
      · exact Option.noConfusion heq

/-! Archetype lookup and location map lemmas. -/

theorem findArchetype_some {archs : List (ArchetypeKey × Archetype)} {key : ArchetypeKey}
    {i : Nat} (h : findArchetype archs key = some i) :
    ∃ a : Archetype, archs[i]? = some (key, a) := by
  induction archs generalizing i with
  | nil => simp [findArchetype] at h
  | cons ka rest ih =>
    by_cases hk : ka.1 = key
    · simp only [findArchetype, if_pos hk] at h
      injection h with h1
      subst h1
      exact ⟨ka.2, by simp [← hk]⟩
    · simp only [findArchetype, if_neg hk, Option.map_eq_some'] at h
      obtain ⟨i2, hi2, hplus⟩ := h
      subst hplus
      obtain ⟨a, ha⟩ := ih hi2
      exact ⟨a, by simpa using ha⟩

theorem findArchetype_none_iff {archs : List (ArchetypeKey × Archetype)}
    {key : ArchetypeKey} :
    findArchetype archs key = none ↔ key ∉ archs.map Prod.fst := by
  induction archs with
  | nil => simp [findArchetype]
  | cons ka rest ih =>
    simp only [findArchetype, List.map_cons, List.mem_cons]
    by_cases hk : ka.1 = key
    · simp [hk]
    · rw [if_neg hk]
      cases hr : findArchetype rest key with
      | none =>
        simp only [Option.map_none']
        constructor
        · intro _ hmem
          rcases hmem with hyx | hmem2
          · exact hk hyx.symm
          · exact (ih.mp hr) hmem2
        · intro _
          trivial
      | some i =>
        simp only [Option.map_some']
        constructor
        · intro hsome
          cases hsome
        · intro hnot
          exfalso
          have hmem : key ∈ rest.map Prod.fst := by
            by_contra hm
            rw [ih.mpr hm] at hr
            cases hr
          exact hnot (Or.inr hmem)

theorem findArchetype_of_nodup {archs : List (ArchetypeKey × Archetype)}
    {key : ArchetypeKey} {i : Nat} {a : Archetype}
    (hnd : (archs.map Prod.fst).Nodup) (h : archs[i]? = some (key, a)) :
    findArchetype archs key = some i := by
  induction archs generalizing i with
  | nil => simp at h
  | cons ka rest ih =>
    simp only [List.map_cons, List.nodup_cons] at hnd
    cases i with
    | zero =>
      simp only [List.getElem?_cons_zero] at h
      injection h with h1
      subst h1
      simp [findArchetype]
    | succ i2 =>
      simp only [List.getElem?_cons_succ] at h
      have hmem : key ∈ rest.map Prod.fst := by
        have : (key, a) ∈ rest := lmem_iff_get.mpr ⟨i2, h⟩
        exact List.mem_map_of_mem Prod.fst this
      have hk : ¬ka.1 = key := fun hke => hnd.1 (hke ▸ hmem)
      simp only [findArchetype, if_neg hk, ih hnd.2 h, Option.map_some']

theorem resizeWith_succ {α : Type} (l : List (Option α)) :
    resizeWith l (l.length + 1) = l ++ [none] := by
  unfold resizeWith
  rw [if_neg (by omega)]
  simp

/-! Unfolding equations for spawn and find_or_create_archetype. -/

theorem find_or_create_found {archs : List (ArchetypeKey × Archetype)}
    {r : ComponentTypeIndexRegistry} {key : ArchetypeKey} {idxs : List Nat} {i : Nat}
    (h : findArchetype archs key = some i) :
    find_or_create_archetype archs r key idxs = some (archs, i) := by
  unfold find_or_create_archetype
  rw [h]

theorem find_or_create_created {archs : List (ArchetypeKey × Archetype)}
    {r : ComponentTypeIndexRegistry} {key : ArchetypeKey} {idxs : List Nat}
    (h : findArchetype archs key = none) (hlt : ∀ i ∈ idxs, i < r.len) :
    find_or_create_archetype archs r key idxs =
      some (archs ++ [(key, ⟨mkCols r idxs, []⟩)], archs.length) := by
  unfold find_or_create_archetype
  rw [h, archetype_new_eq hlt]
  rfl

theorem spawn_unfold_eq (w : World) (comps : List (Nat × Nat)) (alloc1 : EntityAllocator)
    (entity : EntityId)
    (ha : w.entity_allocator.allocate = some (alloc1, entity))
    (archs1 : List (ArchetypeKey × Archetype)) (ai : Nat)
    (hf : find_or_create_archetype w.archetypes
        (registerAll w.type_registry (comps.map Prod.fst)).1
        (ArchetypeKey.new_sorted (registerAll w.type_registry (comps.map Prod.fst)).2)
        (registerAll w.type_registry (comps.map Prod.fst)).2 = some (archs1, ai))
    (key : ArchetypeKey) (arch : Archetype) (hget : archs1[ai]? = some (key, arch))
    (arch1 : Archetype)
    (hins : arch.insert entity (registerAll w.type_registry (comps.map Prod.fst)).2
        (comps.map (fun p => ⟨p.1, [p.2]⟩)) = some arch1) :
    w.spawn comps = some
      (⟨archs1.set ai (key, arch1), (registerAll w.type_registry (comps.map Prod.fst)).1, alloc1,
        (resizeWith w.entity_location_map (entity.index + 1)).set entity.index
          (some (ai, arch.entities.length))⟩, entity) := by
  unfold World.spawn
  simp only [ha, hf, hget, hins]

/-! Nodup and position helpers. -/

theorem lnodup_getElem_inj {α : Type} {l : List α} (hnd : l.Nodup) :
    ∀ {j k : Nat} {x : α}, l[j]? = some x → l[k]? = some x → j = k := by
  induction l with
  | nil =>
    intro j k x hj
    simp at hj
  | cons y ys ih =>
    intro j k x hj hk
    simp only [List.nodup_cons] at hnd
    cases j with
    | zero =>
      cases k with
      | zero => rfl
      | succ k2 =>
        simp only [List.getElem?_cons_zero] at hj
        simp only [List.getElem?_cons_succ] at hk
        injection hj with hj1
        exfalso
        exact hnd.1 (hj1 ▸ lmem_iff_get.mpr ⟨k2, hk⟩)
    | succ j2 =>
      cases k with
      | zero =>
        simp only [List.getElem?_cons_zero] at hk
        simp only [List.getElem?_cons_succ] at hj
        injection hk with hk1
        exfalso
        exact hnd.1 (hk1 ▸ lmem_iff_get.mpr ⟨j2, hj⟩)
      | succ k2 =>
        simp only [List.getElem?_cons_succ] at hj hk
        rw [ih hnd.2 hj hk]

theorem lnodup_of_getElem_inj {α : Type} {l : List α}
    (h : ∀ (j k : Nat) (x : α), l[j]? = some x → l[k]? = some x → j = k) : l.Nodup := by
  induction l with
  | nil => exact List.nodup_nil
  | cons y ys ih =>
    refine List.nodup_cons.mpr ⟨?_, ?_⟩
    · intro hmem
      obtain ⟨k, hk⟩ := lmem_iff_get.mp hmem
      have := h 0 (k + 1) y (by simp) (by simpa using hk)
      cases this
    · refine ih ?_
      intro j k x hj hk
      have := h (j + 1) (k + 1) x (by simpa using hj) (by simpa using hk)
      omega

theorem idxs_nodup (R2 : ComponentTypeIndexRegistry) (comps : List (Nat × Nat))
    (idxs : List Nat) (hlen : idxs.length = comps.length)
    (hidx : ∀ (k : Nat) (p : Nat × Nat), comps[k]? = some p →
      ∃ i : Nat, idxs[k]? = some i ∧ R2.get_index p.1 = some i)
    (hnd : (comps.map Prod.fst).Nodup) : idxs.Nodup := by
  refine lnodup_of_getElem_inj ?_
  intro j k i hj hk
  have hjlt : j < comps.length := by rw [← hlen]; exact lget_some_lt hj
  have hklt : k < comps.length := by rw [← hlen]; exact lget_some_lt hk
  obtain ⟨pj, hpj⟩ : ∃ p, comps[j]? = some p :=
    lget_exists hjlt
  obtain ⟨pk, hpk⟩ : ∃ p, comps[k]? = some p :=
    lget_exists hklt
  obtain ⟨ij, hij, hgj⟩ := hidx j pj hpj
  obtain ⟨ik, hik, hgk⟩ := hidx k pk hpk
  rw [hj] at hij
  rw [hk] at hik
  injection hij with hij1
  injection hik with hik1
  subst hij1
  subst hik1
  have h1 : R2.type_to_index[i]? = some pj.1 := giL_get hgj
  have h2 : R2.type_to_index[i]? = some pk.1 := giL_get hgk
  rw [h1] at h2
  injection h2 with h3
  have htj : (comps.map Prod.fst)[j]? = some pj.1 := by
    rw [List.getElem?_map, hpj]
    rfl
  have htk : (comps.map Prod.fst)[k]? = some pk.1 := by
    rw [List.getElem?_map, hpk]
    rfl
  exact lnodup_getElem_inj hnd htj (h3 ▸ htk)

/-- Lift an archetype invariant along an append-only registry extension. -/
theorem ArchInv_mono {R R2 : List Nat} {key : ArchetypeKey} {a : Archetype}
    (ext : List Nat) (hext : R2 = R ++ ext) (hinv : ArchInv R key a) :
    ArchInv R2 key a := by
  refine ⟨hinv.keyMem, ?_, hinv.colLenGe⟩
  intro i c hc
  have h1 := hinv.colTy i c hc
  rw [hext]
  rw [List.getElem?_append_left (lget_some_lt h1)]
  exact h1

/-- Inserting a spawned row into an archetype whose key matches the component
indices: totality, row append, invariant preservation, column frame facts, and
(for duplicate-free tuples) exact lengths and the stored values. -/
theorem archetype_insert_spec (R2 : ComponentTypeIndexRegistry) (key : ArchetypeKey)
    (arch : Archetype) (comps : List (Nat × Nat)) (idxs : List Nat) (entity : EntityId)
    (hinv : ArchInv R2.type_to_index key arch)
    (hkey : ∀ i : Nat, i ∈ key ↔ i ∈ idxs)
    (hidx : ∀ (k : Nat) (p : Nat × Nat), comps[k]? = some p →
      ∃ i : Nat, idxs[k]? = some i ∧ R2.get_index p.1 = some i)
    (hlen : idxs.length = comps.length) :
    ∃ arch2 : Archetype,
      arch.insert entity idxs (comps.map (fun p => ⟨p.1, [p.2]⟩)) = some arch2 ∧
      arch2.entities = arch.entities ++ [entity] ∧
      arch2.components.length = arch.components.length ∧
      ArchInv R2.type_to_index key arch2 ∧
      (∀ (i : Nat) (c2 : Column), arch2.components[i]? = some (some c2) →
        ∃ c : Column, arch.components[i]? = some (some c) ∧ c2.tyId = c.tyId ∧
          ∃ rest : List Nat, c2.data = c.data ++ rest) ∧
      (∀ (i : Nat) (c : Column), arch.components[i]? = some (some c) →
        ∃ c2 : Column, arch2.components[i]? = some (some c2)) ∧
      ((comps.map Prod.fst).Nodup →
        (∀ (i : Nat) (c : Column), arch.components[i]? = some (some c) →
          c.data.length = arch.entities.length) →
        ((∀ (i : Nat) (c2 : Column), arch2.components[i]? = some (some c2) →
          c2.data.length = arch2.entities.length) ∧
        (∀ t v : Nat, (t, v) ∈ comps →
          ∃ i : Nat, ∃ d : List Nat, R2.get_index t = some i ∧
            arch2.get_column t i = some d ∧ d[arch.entities.length]? = some v))) := by
  have hcars2 : ∀ (k : Nat) (p : Nat × Nat), comps[k]? = some p →
      (comps.map (fun p => (⟨p.1, [p.2]⟩ : Column)))[k]? = some ⟨p.1, [p.2]⟩ := by
    intro k p hp
    rw [List.getElem?_map, hp]
    rfl
  have hlen2 : idxs.length = (comps.map (fun p => (⟨p.1, [p.2]⟩ : Column))).length := by
    rw [List.length_map]
    exact hlen
  have hslot : ∀ (k s : Nat), idxs[k]? = some s →
      ∃ col : Column, arch.components[s]? = some (some col) ∧
        R2.type_to_index[s]? = some col.tyId := by
    intro k s hk
    have hmem_s : s ∈ idxs := lmem_iff_get.mpr ⟨k, hk⟩
    obtain ⟨col, hcol⟩ := (hinv.keyMem s).mp ((hkey s).mpr hmem_s)
    exact ⟨col, hcol, hinv.colTy s col hcol⟩
  have hpos : ∀ (k s : Nat) (p : Nat × Nat), idxs[k]? = some s → comps[k]? = some p →
      R2.get_index p.1 = some s := by
    intro k s p hk hp
    obtain ⟨i, hi, hgi⟩ := hidx k p hp
    rw [hk] at hi
    injection hi with hi1
    rw [hi1]
    exact hgi
  have hcond : ∀ (k s : Nat) (c : Column), idxs[k]? = some s →
      (comps.map (fun p => (⟨p.1, [p.2]⟩ : Column)))[k]? = some c →
      ∃ col : Column, arch.components[s]? = some (some col) ∧ col.tyId = c.tyId ∧
        c.data ≠ [] := by
    intro k s c hk hck
    rw [List.getElem?_map] at hck
    cases hp : comps[k]? with
    | none => rw [hp] at hck; cases hck
    | some p =>
      rw [hp] at hck
      injection hck with hck1
      obtain ⟨col, hcol, hcolty⟩ := hslot k s hk
      have hgs : R2.get_index p.1 = some s := hpos k s p hk hp
      have hty2 : R2.type_to_index[s]? = some p.1 := giL_get hgs
      rw [hcolty] at hty2
      injection hty2 with hty3
      refine ⟨col, hcol, ?_, ?_⟩
      · rw [hty3, ← hck1]
      · rw [← hck1]
        simp
  obtain ⟨cols2, heq, hlength, hnotmem, hback, hfwd⟩ :=
    insertCols_strong idxs (comps.map (fun p => ⟨p.1, [p.2]⟩)) arch.components hlen2 hcond
  refine ⟨⟨cols2, arch.entities ++ [entity]⟩, ?_, rfl, hlength, ?_, ?_, ?_, ?_⟩
  · simp only [Archetype.insert, heq, Option.map_some']
  · refine ⟨?_, ?_, ?_⟩
    · intro i
      constructor
      · intro hik
        obtain ⟨c, hc⟩ := (hinv.keyMem i).mp hik
        obtain ⟨c2, hc2⟩ := hfwd i c hc
        exact ⟨c2, hc2⟩
      · rintro ⟨c2, hc2⟩
        obtain ⟨c, hc, _, _, _⟩ := hback i c2 hc2
        exact (hinv.keyMem i).mpr ⟨c, hc⟩
    · intro i c2 hc2
      obtain ⟨c, hc, hty, _, _⟩ := hback i c2 hc2
      rw [hty]
      exact hinv.colTy i c hc
    · intro i c2 hc2
      obtain ⟨c, hc, _, _, hplus⟩ := hback i c2 hc2
      have hik : i ∈ idxs := (hkey i).mp ((hinv.keyMem i).mpr ⟨c, hc⟩)
      have h1 := hinv.colLenGe i c hc
      have h2 := hplus hik
      simp only [List.length_append, List.length_singleton]
      omega
  · intro i c2 hc2
    obtain ⟨c, hc, hty, hrest, _⟩ := hback i c2 hc2
    exact ⟨c, hc, hty, hrest⟩
  · exact hfwd
  · intro hnd hexact
    have hndidx : idxs.Nodup := idxs_nodup R2 comps idxs hlen hidx hnd
    constructor
    · intro i c2 hc2
      obtain ⟨c, hc, _, _, _⟩ := hback i c2 hc2
      have hik : i ∈ idxs := (hkey i).mp ((hinv.keyMem i).mpr ⟨c, hc⟩)
      obtain ⟨k, hk⟩ := lmem_iff_get.mp hik
      have hklt : k < comps.length := by rw [← hlen]; exact lget_some_lt hk
      obtain ⟨p, hp⟩ : ∃ p, comps[k]? = some p :=
        lget_exists hklt
      obtain ⟨v0, vrest0, hv0, hget0⟩ :=
        insertCols_nodup_get idxs (comps.map (fun p => ⟨p.1, [p.2]⟩)) arch.components cols2
          hndidx heq k i ⟨p.1, [p.2]⟩ c hk (hcars2 k p hp) hc
      rw [hc2] at hget0
      injection hget0 with hg1
      injection hg1 with hg2
      rw [hg2]
      simp only [List.length_append, List.length_singleton]
      rw [hexact i c hc]
    · intro t v htv
      obtain ⟨k, hk⟩ := lmem_iff_get.mp htv
      obtain ⟨i, hi, hgi⟩ := hidx k (t, v) hk
      obtain ⟨col, hcol, hcolty⟩ := hslot k i hi
      have hty2 : R2.type_to_index[i]? = some t := giL_get hgi
      rw [hcolty] at hty2
      injection hty2 with hty3
      obtain ⟨v0, vrest0, hv0, hget0⟩ :=
        insertCols_nodup_get idxs (comps.map (fun p => ⟨p.1, [p.2]⟩)) arch.components cols2
          hndidx heq k i ⟨t, [v]⟩ col hi (hcars2 k (t, v) hk) hcol
      have hv0v : v0 = v := by
        injection hv0 with h1 h2
        exact h1.symm
      refine ⟨i, col.data ++ [v], hgi, ?_, ?_⟩
      · show Archetype.get_column ⟨cols2, arch.entities ++ [entity]⟩ t i = _
        unfold Archetype.get_column
        rw [show (⟨cols2, arch.entities ++ [entity]⟩ : Archetype).components = cols2 from rfl]
        rw [hget0, hv0v]
        show (if col.tyId = t then some (col.data ++ [v]) else none) = some (col.data ++ [v])
        rw [if_pos hty3]
      · rw [← hexact i col hcol]
        exact List.getElem?_concat_length col.data v

theorem lset_self {α : Type} {l : List α} {i : Nat} {v : α} (h : l[i]? = some v) :
    l.set i v = l := by
  induction l generalizing i with
  | nil => simp at h
  | cons x xs ih =>
    cases i with
    | zero =>
      simp only [List.getElem?_cons_zero] at h
      injection h with h1
      rw [List.set_cons_zero, h1]
    | succ i2 =>
      simp only [List.getElem?_cons_succ] at h
      rw [List.set_cons_succ, ih h]

theorem map_fst_set_key {archs : List (ArchetypeKey × Archetype)} {aj : Nat}
    {key : ArchetypeKey} {archOld arch2 : Archetype}
    (h : archs[aj]? = some (key, archOld)) :
    (archs.set aj (key, arch2)).map Prod.fst = archs.map Prod.fst := by
  rw [List.map_set]
  refine lset_self ?_
  rw [List.getElem?_map, h]
  rfl

/-- The freshly constructed archetype of Archetype::new satisfies the
archetype invariant with empty columns. -/
theorem mkCols_archinv (R2 : ComponentTypeIndexRegistry) (idxs : List Nat)
    (key : ArchetypeKey) (hkey : ∀ i : Nat, i ∈ key ↔ i ∈ idxs)
    (hlt : ∀ i ∈ idxs, i < R2.len) :
    ArchInv R2.type_to_index key ⟨mkCols R2 idxs, []⟩ ∧
      (∀ (i : Nat) (c : Column), (mkCols R2 idxs)[i]? = some (some c) →
        c.data.length = 0) := by
  have hget : ∀ i : Nat, (mkCols R2 idxs)[i]? =
      if i ∈ idxs ∧ i < R2.len then some (some (R2.create_empty_column i))
      else if i < R2.len then some none else none := fun i => mkCols_get R2 idxs i
  have hpop : ∀ (i : Nat) (c : Column), (mkCols R2 idxs)[i]? = some (some c) →
      i ∈ idxs ∧ c = R2.create_empty_column i := by
    intro i c hc
    rw [hget i] at hc
    by_cases h1 : i ∈ idxs ∧ i < R2.len
    · rw [if_pos h1] at hc
      injection hc with hc1
      injection hc1 with hc2
      exact ⟨h1.1, hc2.symm⟩
    · rw [if_neg h1] at hc
      by_cases h2 : i < R2.len
      · rw [if_pos h2] at hc
        injection hc with hc1
        cases hc1
      · rw [if_neg h2] at hc
        cases hc
  refine ⟨⟨?_, ?_, ?_⟩, ?_⟩
  · intro i
    constructor
    · intro hik
      have hii : i ∈ idxs := (hkey i).mp hik
      refine ⟨R2.create_empty_column i, ?_⟩
      rw [hget i, if_pos ⟨hii, hlt i hii⟩]
    · rintro ⟨c, hc⟩
      exact (hkey i).mpr (hpop i c hc).1
  · intro i c hc
    obtain ⟨hii, hcc⟩ := hpop i c hc
    have hilt : i < R2.len := hlt i hii
    obtain ⟨x, hx⟩ : ∃ x, R2.type_to_index[i]? = some x :=
      lget_exists hilt
    have hgd : R2.type_to_index.getD i 0 = x := by
      simp [List.getD, hx]
    rw [hcc]
    show R2.type_to_index[i]? = some (R2.type_to_index.getD i 0)
    rw [hx, hgd]
  · intro i c hc
    simp
  · intro i c hc
    obtain ⟨_, hcc⟩ := hpop i c hc
    rw [hcc]
    rfl

/-- Master specification of one World::spawn step from an invariant-satisfying
world: it succeeds and returns the fresh handle (next index, generation 0),
preserves the world invariant, grows the location map by exactly one slot
without disturbing earlier entries, records the new location in an archetype
whose key is the sorted component index list (reusing the first key-equal
archetype, else appending a new one), only appends to existing archetype
columns, and, for duplicate-free tuples over exactly-filled worlds, stores
each passed component value retrievably via get_component. -/
theorem spawn_master (w : World) (hw : WInv w) (comps : List (Nat × Nat)) :
    ∃ (w2 : World) (ai row : Nat),
      w.spawn comps = some (w2, ⟨w.entity_location_map.length, 0⟩) ∧
      WInv w2 ∧
      w2.type_registry = (registerAll w.type_registry (comps.map Prod.fst)).1 ∧
      w2.entity_location_map.length = w.entity_location_map.length + 1 ∧
      (∀ ix : Nat, ix < w.entity_location_map.length →
        w2.entity_location_map[ix]? = w.entity_location_map[ix]?) ∧
      w2.entity_location_map[w.entity_location_map.length]? = some (some (ai, row)) ∧
      (∃ arch2 : Archetype, w2.archetypes[ai]? =
        some (ArchetypeKey.new_sorted (registerAll w.type_registry (comps.map Prod.fst)).2,
          arch2)) ∧
      ai = (match findArchetype w.archetypes
          (ArchetypeKey.new_sorted (registerAll w.type_registry (comps.map Prod.fst)).2) with
        | some j => j
        | none => w.archetypes.length) ∧
      (∀ (aj : Nat) (ka : ArchetypeKey × Archetype), w.archetypes[aj]? = some ka →
        ∃ ka2 : ArchetypeKey × Archetype, w2.archetypes[aj]? = some ka2 ∧ ka2.1 = ka.1 ∧
          ka2.2.components.length = ka.2.components.length ∧
          (∀ (i : Nat) (c2 : Column), ka2.2.components[i]? = some (some c2) →
            ∃ c : Column, ka.2.components[i]? = some (some c) ∧ c2.tyId = c.tyId ∧
              ∃ rest : List Nat, c2.data = c.data ++ rest) ∧
          (∀ (i : Nat) (c : Column), ka.2.components[i]? = some (some c) →
            ∃ c2 : Column, ka2.2.components[i]? = some (some c2))) ∧
      ((comps.map Prod.fst).Nodup → colExact w →
        ((∀ t v : Nat, (t, v) ∈ comps →
          w2.get_component t ⟨w.entity_location_map.length, 0⟩ = some (some v)) ∧
        colExact w2)) := by
  have ha : w.entity_allocator.allocate =
      some (⟨w.entity_allocator.generations ++ [0], []⟩,
        ⟨w.entity_location_map.length, 0⟩) := by
    unfold EntityAllocator.allocate
    simp only [hw.freeNil, hw.genLen]
  have hidx : ∀ (k : Nat) (p : Nat × Nat), comps[k]? = some p →
      ∃ i : Nat, (registerAll w.type_registry (comps.map Prod.fst)).2[k]? = some i ∧
        (registerAll w.type_registry (comps.map Prod.fst)).1.get_index p.1 = some i := by
    intro k p hp
    have htk : (comps.map Prod.fst)[k]? = some p.1 := by
      rw [List.getElem?_map, hp]
      rfl
    exact registerAll_get w.type_registry (comps.map Prod.fst) k p.1 htk
  have hlenidx : (registerAll w.type_registry (comps.map Prod.fst)).2.length = comps.length := by
    rw [registerAll_len, List.length_map]
  obtain ⟨ext, hext⟩ := registerAll_ext w.type_registry (comps.map Prod.fst)
  have hR2nodup : (registerAll w.type_registry (comps.map Prod.fst)).1.type_to_index.Nodup :=
    registerAll_nodup (comps.map Prod.fst) hw.regNodup
  have hlt : ∀ i ∈ (registerAll w.type_registry (comps.map Prod.fst)).2,
      i < (registerAll w.type_registry (comps.map Prod.fst)).1.len := by
    intro i hi
    obtain ⟨k, hk⟩ := lmem_iff_get.mp hi
    have hklt : k < comps.length := by
      rw [← hlenidx]
      exact lget_some_lt hk
    obtain ⟨p, hp⟩ : ∃ p, comps[k]? = some p :=
      lget_exists hklt
    obtain ⟨i2, hi2, hgi⟩ := hidx k p hp
    rw [hk] at hi2
    injection hi2 with hi3
    rw [hi3]
    exact giL_lt hgi
  have hkeymem : ∀ i : Nat,
      i ∈ ArchetypeKey.new_sorted (registerAll w.type_registry (comps.map Prod.fst)).2 ↔
        i ∈ (registerAll w.type_registry (comps.map Prod.fst)).2 :=
    fun i => mem_sortIndices
  cases hfind : findArchetype w.archetypes
      (ArchetypeKey.new_sorted (registerAll w.type_registry (comps.map Prod.fst)).2) with
  | some aj =>
    obtain ⟨archOld, haj⟩ := findArchetype_some hfind
    have hajlt : aj < w.archetypes.length := lget_some_lt haj
    have hainv2 : ArchInv (registerAll w.type_registry (comps.map Prod.fst)).1.type_to_index
        (ArchetypeKey.new_sorted (registerAll w.type_registry (comps.map Prod.fst)).2)
        archOld :=
      ArchInv_mono ext hext (hw.archs aj _ haj)
    obtain ⟨arch2, hins, hent, hclen, hinv2, hback2, hfwd2, hguard⟩ :=
      archetype_insert_spec (registerAll w.type_registry (comps.map Prod.fst)).1
        (ArchetypeKey.new_sorted (registerAll w.type_registry (comps.map Prod.fst)).2)
        archOld comps (registerAll w.type_registry (comps.map Prod.fst)).2
        ⟨w.entity_location_map.length, 0⟩ hainv2 hkeymem hidx hlenidx
    have hspawn := spawn_unfold_eq w comps ⟨w.entity_allocator.generations ++ [0], []⟩
      ⟨w.entity_location_map.length, 0⟩ ha w.archetypes aj (find_or_create_found hfind)
      (ArchetypeKey.new_sorted (registerAll w.type_registry (comps.map Prod.fst)).2)
      archOld haj arch2 hins
    rw [show (⟨w.entity_location_map.length, 0⟩ : EntityId).index =
      w.entity_location_map.length from rfl, resizeWith_succ] at hspawn
    have hent2len : arch2.entities.length = archOld.entities.length + 1 := by
      rw [hent, List.length_append, List.length_singleton]
    have hmap2get : ∀ ix : Nat,
        ((w.entity_location_map ++ [none]).set w.entity_location_map.length
          (some (aj, archOld.entities.length)))[ix]? =
        if w.entity_location_map.length = ix then some (some (aj, archOld.entities.length))
        else (w.entity_location_map ++ [none])[ix]? := by
      intro ix
      rw [lget_set]
      by_cases hix : w.entity_location_map.length = ix
      · rw [if_pos ⟨hix, by rw [List.length_append, List.length_singleton]; omega⟩, if_pos hix]
      · rw [if_neg (by tauto), if_neg hix]
    have harchget : ∀ aj2 : Nat,
        (w.archetypes.set aj
          (ArchetypeKey.new_sorted (registerAll w.type_registry (comps.map Prod.fst)).2,
            arch2))[aj2]? =
        if aj = aj2 then some
          (ArchetypeKey.new_sorted (registerAll w.type_registry (comps.map Prod.fst)).2, arch2)
        else w.archetypes[aj2]? := by
      intro aj2
      rw [lget_set]
      by_cases hx : aj = aj2
      · rw [if_pos ⟨hx, hajlt⟩, if_pos hx]
      · rw [if_neg (by tauto), if_neg hx]
    refine ⟨_, aj, archOld.entities.length, hspawn, ?_, rfl, ?_, ?_, ?_, ?_, ?_, ?_, ?_⟩
    · -- WInv
      refine ⟨rfl, ?_, hR2nodup, ?_, ?_, ?_⟩
      · show (w.entity_allocator.generations ++ [0]).length = _
        rw [List.length_append, List.length_singleton, List.length_set, List.length_append,
          List.length_singleton, hw.genLen]
      · show ((w.archetypes.set aj _).map Prod.fst).Nodup
        rw [map_fst_set_key haj]
        exact hw.keysNodup
      · intro aj2 ka2 hka2
        rw [harchget aj2] at hka2
        by_cases hx : aj = aj2
        · rw [if_pos hx] at hka2
          injection hka2 with hka3
          rw [← hka3]
          exact hinv2
        · rw [if_neg hx] at hka2
          exact ArchInv_mono ext hext (hw.archs aj2 ka2 hka2)
      · intro ix loc hloc
        rw [hmap2get ix] at hloc
        by_cases hix : w.entity_location_map.length = ix
        · rw [if_pos hix] at hloc
          injection hloc with hloc1
          refine ⟨aj, archOld.entities.length, hloc1.symm, ?_⟩
          refine ⟨(ArchetypeKey.new_sorted
            (registerAll w.type_registry (comps.map Prod.fst)).2, arch2), ?_, ?_⟩
          · rw [harchget aj, if_pos rfl]
          · show archOld.entities.length < arch2.entities.length
            omega
        · rw [if_neg hix] at hloc
          have hixlt : ix < w.entity_location_map.length := by
            have h1 := lget_some_lt hloc
            rw [List.length_append, List.length_singleton] at h1
            rcases Nat.lt_or_ge ix w.entity_location_map.length with h2 | h2
            · exact h2
            · exfalso
              have hxeq : ix = w.entity_location_map.length := by omega
              rw [hxeq, List.getElem?_concat_length] at hloc
              injection hloc with hloc1
              exact hix hxeq.symm
          rw [List.getElem?_append_left hixlt] at hloc
          obtain ⟨ai3, row3, hloc3, ka3, hka3, hrow3⟩ := hw.locMap ix loc hloc
          refine ⟨ai3, row3, hloc3, ?_⟩
          by_cases hx : aj = ai3
          · refine ⟨(ArchetypeKey.new_sorted
              (registerAll w.type_registry (comps.map Prod.fst)).2, arch2), ?_, ?_⟩
            · rw [harchget ai3, if_pos hx]
            · show row3 < arch2.entities.length
              rw [← hx] at hka3
              rw [haj] at hka3
              injection hka3 with hka4
              rw [← hka4] at hrow3
              have : row3 < archOld.entities.length := hrow3
              omega
          · refine ⟨ka3, ?_, hrow3⟩
            rw [harchget ai3, if_neg hx]
            exact hka3
    · -- map length
      rw [List.length_set, List.length_append, List.length_singleton]
    · -- map frame
      intro ix hix
      rw [hmap2get ix, if_neg (by omega), List.getElem?_append_left hix]
    · -- map new entry
      rw [hmap2get _, if_pos rfl]
    · -- archetype at ai
      exact ⟨arch2, by rw [harchget aj, if_pos rfl]⟩
    · -- ai equation
      rfl
    · -- frame for old archetypes
      intro aj2 ka hka
      by_cases hx : aj = aj2
      · refine ⟨(ArchetypeKey.new_sorted
          (registerAll w.type_registry (comps.map Prod.fst)).2, arch2), ?_, ?_, ?_, ?_, ?_⟩
        · rw [harchget aj2, if_pos hx]
        · rw [← hx] at hka
          rw [haj] at hka
          injection hka with hka1
          rw [← hka1]
        · rw [← hx] at hka
          rw [haj] at hka
          injection hka with hka1
          rw [← hka1]
          exact hclen
        · intro i c2 hc2
          rw [← hx] at hka
          rw [haj] at hka
          injection hka with hka1
          rw [← hka1]
          exact hback2 i c2 hc2
        · intro i c hc
          rw [← hx] at hka
          rw [haj] at hka
          injection hka with hka1
          rw [← hka1] at hc
          exact hfwd2 i c hc
      · refine ⟨ka, ?_, rfl, rfl, ?_, ?_⟩
        · rw [harchget aj2, if_neg hx]
          exact hka
        · intro i c2 hc2
          exact ⟨c2, hc2, rfl, ⟨[], by simp⟩⟩
        · intro i c hc
          exact ⟨c, hc⟩
    · -- guarded values and exactness
      intro hnd hexact
      have hexactOld : ∀ (i : Nat) (c : Column), archOld.components[i]? = some (some c) →
          c.data.length = archOld.entities.length :=
        fun i c hc => hexact aj _ haj i c hc
      obtain ⟨hexact2, hvals⟩ := hguard hnd hexactOld
      constructor
      · intro t v htv
        obtain ⟨i, d, hgi, hcol, hd⟩ := hvals t v htv
        unfold World.get_component
        have hmapn : ((w.entity_location_map ++ [none]).set w.entity_location_map.length
            (some (aj, archOld.entities.length)))[w.entity_location_map.length]? =
            some (some (aj, archOld.entities.length)) := by
          rw [hmap2get _, if_pos rfl]
        have harchn : (w.archetypes.set aj
            (ArchetypeKey.new_sorted (registerAll w.type_registry (comps.map Prod.fst)).2,
              arch2))[aj]? =
            some (ArchetypeKey.new_sorted
              (registerAll w.type_registry (comps.map Prod.fst)).2, arch2) := by
          rw [harchget aj, if_pos rfl]
        simp only [hgi, hmapn, harchn, hcol]
        simp [hd]
      · intro aj2 ka2 hka2 i c2 hc2
        rw [harchget aj2] at hka2
        by_cases hx : aj = aj2
        · rw [if_pos hx] at hka2
          injection hka2 with hka3
          rw [← hka3] at hc2
          rw [← hka3]
          exact hexact2 i c2 hc2
        · rw [if_neg hx] at hka2
          exact hexact aj2 ka2 hka2 i c2 hc2
  | none =>
    have hnotmem_key : ArchetypeKey.new_sorted
        (registerAll w.type_registry (comps.map Prod.fst)).2 ∉
        w.archetypes.map Prod.fst := findArchetype_none_iff.mp hfind
    obtain ⟨hnewinv, hnewexact⟩ := mkCols_archinv
      (registerAll w.type_registry (comps.map Prod.fst)).1
      (registerAll w.type_registry (comps.map Prod.fst)).2
      (ArchetypeKey.new_sorted (registerAll w.type_registry (comps.map Prod.fst)).2)
      hkeymem hlt
    obtain ⟨arch2, hins, hent, hclen, hinv2, hback2, hfwd2, hguard⟩ :=
      archetype_insert_spec (registerAll w.type_registry (comps.map Prod.fst)).1
        (ArchetypeKey.new_sorted (registerAll w.type_registry (comps.map Prod.fst)).2)
        ⟨mkCols (registerAll w.type_registry (comps.map Prod.fst)).1
          (registerAll w.type_registry (comps.map Prod.fst)).2, []⟩
        comps (registerAll w.type_registry (comps.map Prod.fst)).2
        ⟨w.entity_location_map.length, 0⟩ hnewinv hkeymem hidx hlenidx
    have hget1 : (w.archetypes ++
        [(ArchetypeKey.new_sorted (registerAll w.type_registry (comps.map Prod.fst)).2,
          ⟨mkCols (registerAll w.type_registry (comps.map Prod.fst)).1
            (registerAll w.type_registry (comps.map Prod.fst)).2, []⟩)])[
          w.archetypes.length]? =
        some (ArchetypeKey.new_sorted (registerAll w.type_registry (comps.map Prod.fst)).2,
          ⟨mkCols (registerAll w.type_registry (comps.map Prod.fst)).1
            (registerAll w.type_registry (comps.map Prod.fst)).2, []⟩) :=
      List.getElem?_concat_length _ _
    have hspawn := spawn_unfold_eq w comps ⟨w.entity_allocator.generations ++ [0], []⟩
      ⟨w.entity_location_map.length, 0⟩ ha
      (w.archetypes ++
        [(ArchetypeKey.new_sorted (registerAll w.type_registry (comps.map Prod.fst)).2,
          ⟨mkCols (registerAll w.type_registry (comps.map Prod.fst)).1
            (registerAll w.type_registry (comps.map Prod.fst)).2, []⟩)])
      w.archetypes.length (find_or_create_created hfind hlt)
      (ArchetypeKey.new_sorted (registerAll w.type_registry (comps.map Prod.fst)).2)
      ⟨mkCols (registerAll w.type_registry (comps.map Prod.fst)).1
        (registerAll w.type_registry (comps.map Prod.fst)).2, []⟩
      hget1 arch2 hins
    rw [show (⟨w.entity_location_map.length, 0⟩ : EntityId).index =
      w.entity_location_map.length from rfl, resizeWith_succ] at hspawn
    have hent2len : arch2.entities.length = 1 := by
      rw [hent]
      rfl
    have hmap2get : ∀ ix : Nat,
        ((w.entity_location_map ++ [none]).set w.entity_location_map.length
          (some (w.archetypes.length,
            (⟨mkCols (registerAll w.type_registry (comps.map Prod.fst)).1
              (registerAll w.type_registry (comps.map Prod.fst)).2, []⟩ :
                Archetype).entities.length)))[ix]? =
        if w.entity_location_map.length = ix then
          some (some (w.archetypes.length, 0))
        else (w.entity_location_map ++ [none])[ix]? := by
      intro ix
      rw [lget_set]
      by_cases hix : w.entity_location_map.length = ix
      · rw [if_pos ⟨hix, by rw [List.length_append, List.length_singleton]; omega⟩, if_pos hix]
        rfl
      · rw [if_neg (by tauto), if_neg hix]
    have harchget : ∀ aj2 : Nat,
        ((w.archetypes ++
          [(ArchetypeKey.new_sorted (registerAll w.type_registry (comps.map Prod.fst)).2,
            (⟨mkCols (registerAll w.type_registry (comps.map Prod.fst)).1
              (registerAll w.type_registry (comps.map Prod.fst)).2, []⟩ : Archetype))]).set
          w.archetypes.length
          (ArchetypeKey.new_sorted (registerAll w.type_registry (comps.map Prod.fst)).2,
            arch2))[aj2]? =
        if w.archetypes.length = aj2 then
          some (ArchetypeKey.new_sorted
            (registerAll w.type_registry (comps.map Prod.fst)).2, arch2)
        else w.archetypes[aj2]? := by
      intro aj2
      rw [lget_set]
      by_cases hx : w.archetypes.length = aj2
      · rw [if_pos ⟨hx, by rw [List.length_append, List.length_singleton]; omega⟩, if_pos hx]
      · rw [if_neg (by tauto), if_neg hx]
        by_cases h2 : aj2 < w.archetypes.length
        · rw [List.getElem?_append_left h2]
        · rw [List.getElem?_eq_none
            (by rw [List.length_append, List.length_singleton]; omega),
            List.getElem?_eq_none (by omega)]
    refine ⟨_, w.archetypes.length, 0, hspawn, ?_, rfl, ?_, ?_, ?_, ?_, ?_, ?_, ?_⟩
    · -- WInv
      refine ⟨rfl, ?_, hR2nodup, ?_, ?_, ?_⟩
      · show (w.entity_allocator.generations ++ [0]).length = _
        rw [List.length_append, List.length_singleton, List.length_set, List.length_append,
          List.length_singleton, hw.genLen]
      · show ((_ : List (ArchetypeKey × Archetype)).map Prod.fst).Nodup
        rw [map_fst_set_key hget1, List.map_append]
        refine lnodup_concat hw.keysNodup ?_
        simpa using hnotmem_key
      · intro aj2 ka2 hka2
        rw [harchget aj2] at hka2
        by_cases hx : w.archetypes.length = aj2
        · rw [if_pos hx] at hka2
          injection hka2 with hka3
          rw [← hka3]
          exact hinv2
        · rw [if_neg hx] at hka2
          exact ArchInv_mono ext hext (hw.archs aj2 ka2 hka2)
      · intro ix loc hloc
        rw [hmap2get ix] at hloc
        by_cases hix : w.entity_location_map.length = ix
        · rw [if_pos hix] at hloc
          injection hloc with hloc1
          refine ⟨w.archetypes.length, 0, hloc1.symm, ?_⟩
          refine ⟨(ArchetypeKey.new_sorted
            (registerAll w.type_registry (comps.map Prod.fst)).2, arch2), ?_, ?_⟩
          · rw [harchget _, if_pos rfl]
          · show 0 < arch2.entities.length
            omega
        · rw [if_neg hix] at hloc
          have hixlt : ix < w.entity_location_map.length := by
            have h1 := lget_some_lt hloc
            rw [List.length_append, List.length_singleton] at h1
            rcases Nat.lt_or_ge ix w.entity_location_map.length with h2 | h2
            · exact h2
            · exfalso
              have hxeq : ix = w.entity_location_map.length := by omega
              rw [hxeq, List.getElem?_concat_length] at hloc
              injection hloc with hloc1
              exact hix hxeq.symm
          rw [List.getElem?_append_left hixlt] at hloc
          obtain ⟨ai3, row3, hloc3, ka3, hka3, hrow3⟩ := hw.locMap ix loc hloc
          have hai3lt : ai3 < w.archetypes.length := lget_some_lt hka3
          refine ⟨ai3, row3, hloc3, ka3, ?_, hrow3⟩
          rw [harchget ai3, if_neg (by omega)]
          exact hka3
    · -- map length
      rw [List.length_set, List.length_append, List.length_singleton]
    · -- map frame
      intro ix hix
      rw [hmap2get ix, if_neg (by omega), List.getElem?_append_left hix]
    · -- map new entry
      rw [hmap2get _, if_pos rfl]
    · -- archetype at ai
      exact ⟨arch2, by rw [harchget _, if_pos rfl]⟩
    · -- ai equation
      rfl
    · -- frame for old archetypes
      intro aj2 ka hka
      have haj2lt : aj2 < w.archetypes.length := lget_some_lt hka
      refine ⟨ka, ?_, rfl, rfl, ?_, ?_⟩
      · rw [harchget aj2, if_neg (by omega)]
        exact hka
      · intro i c2 hc2
        exact ⟨c2, hc2, rfl, ⟨[], by simp⟩⟩
      · intro i c hc
        exact ⟨c, hc⟩
    · -- guarded values and exactness
      intro hnd hexact
      have hexactNew : ∀ (i : Nat) (c : Column),
          (⟨mkCols (registerAll w.type_registry (comps.map Prod.fst)).1
            (registerAll w.type_registry (comps.map Prod.fst)).2, []⟩ :
              Archetype).components[i]? = some (some c) →
          c.data.length = (⟨mkCols (registerAll w.type_registry (comps.map Prod.fst)).1
            (registerAll w.type_registry (comps.map Prod.fst)).2, []⟩ :
              Archetype).entities.length := by
        intro i c hc
        rw [hnewexact i c hc]
        rfl
      obtain ⟨hexact2, hvals⟩ := hguard hnd hexactNew
      constructor
      · intro t v htv
        obtain ⟨i, d, hgi, hcol, hd⟩ := hvals t v htv
        unfold World.get_component
        have hmapn : ((w.entity_location_map ++ [none]).set w.entity_location_map.length
            (some (w.archetypes.length,
              (⟨mkCols (registerAll w.type_registry (comps.map Prod.fst)).1
                (registerAll w.type_registry (comps.map Prod.fst)).2, []⟩ :
                  Archetype).entities.length)))[w.entity_location_map.length]? =
            some (some (w.archetypes.length, 0)) := by
          rw [hmap2get _, if_pos rfl]
        have harchn : ((w.archetypes ++
            [(ArchetypeKey.new_sorted (registerAll w.type_registry (comps.map Prod.fst)).2,
              (⟨mkCols (registerAll w.type_registry (comps.map Prod.fst)).1
                (registerAll w.type_registry (comps.map Prod.fst)).2, []⟩ : Archetype))]).set
            w.archetypes.length
            (ArchetypeKey.new_sorted (registerAll w.type_registry (comps.map Prod.fst)).2,
              arch2))[w.archetypes.length]? =
            some (ArchetypeKey.new_sorted
              (registerAll w.type_registry (comps.map Prod.fst)).2, arch2) := by
          rw [harchget _, if_pos rfl]
        simp only [hgi, hmapn, harchn, hcol]
        simp only [Option.some_bind]
        rw [show ((⟨mkCols (registerAll w.type_registry (comps.map Prod.fst)).1
          (registerAll w.type_registry (comps.map Prod.fst)).2, []⟩ :
            Archetype).entities.length) = 0 from rfl] at hd
        simp [hd]
      · intro aj2 ka2 hka2 i c2 hc2
        rw [harchget aj2] at hka2
        by_cases hx : w.archetypes.length = aj2
        · rw [if_pos hx] at hka2
          injection hka2 with hka3
          rw [← hka3] at hc2
          rw [← hka3]
          exact hexact2 i c2 hc2
        · rw [if_neg hx] at hka2
          exact hexact aj2 ka2 hka2 i c2 hc2

/-! Reachability: every spawn-reachable world satisfies the invariant. -/

theorem winv_new : WInv World.new := by
  refine ⟨rfl, rfl, List.nodup_nil, List.nodup_nil, ?_, ?_⟩
  · intro ai ka hka
    simp [World.new] at hka
  · intro ix loc hloc
    simp [World.new] at hloc

theorem colExact_new : colExact World.new := by
  intro ai ka hka
  simp [World.new] at hka

theorem reachable_winv {w : World} (hr : Reachable w) : WInv w := by
  induction hr with
  | base => exact winv_new
  | step hr2 hspawn ih =>
    rename_i w0 w2 comps e
    obtain ⟨w2b, ai, row, hsp, hinv, _⟩ := spawn_master w0 ih comps
    rw [hspawn] at hsp
    injection hsp with hsp1
    injection hsp1 with hw2 he
    rw [hw2]
    exact hinv

theorem reachableND_winv {w : World} (hr : ReachableND w) : WInv w ∧ colExact w := by
  induction hr with
  | base => exact ⟨winv_new, colExact_new⟩
  | step hr2 hnd hspawn ih =>
    rename_i w0 w2 comps e
    obtain ⟨w2b, ai, row, hsp, hinv, hreg, hmlen, hmfr, hmnew, harch, hai, hfr, hguard⟩ :=
      spawn_master w0 ih.1 comps
    rw [hspawn] at hsp
    injection hsp with hsp1
    injection hsp1 with hw2 he
    obtain ⟨hvals, hexact2⟩ := hguard hnd ih.2
    rw [hw2]
    exact ⟨hinv, hexact2⟩

/-! Further insertCols lemmas used for the column-length invariant claim. -/

theorem insertCols_le (idxs : List Nat) : ∀ (cars : List Column)
    (cols cols2 : List (Option Column)),
    insertCols cols idxs cars = some cols2 → idxs.length ≤ cars.length := by
  induction idxs with
  | nil =>
    intro cars cols cols2 heq
    simp
  | cons s0 restI ih =>
    intro cars cols cols2 heq
    cases cars with
    | nil =>
      rw [show insertCols cols (s0 :: restI) [] = none from rfl] at heq
      exact Option.noConfusion heq
    | cons c0 restC =>
      simp only [insertCols] at heq
      split at heq
      · split at heq
        · rename_i column hcols0 column2 hpush
          have := ih restC _ cols2 heq
          simp only [List.length_cons]
          omega
        · exact Option.noConfusion heq
      · exact Option.noConfusion heq
      · exact Option.noConfusion heq

theorem insertCols_back (idxs : List Nat) : ∀ (cars : List Column)
    (cols cols2 : List (Option Column)),
    insertCols cols idxs cars = some cols2 →
    ∀ (i : Nat) (c2 : Column), cols2[i]? = some (some c2) →
      ∃ c : Column, cols[i]? = some (some c) := by
  induction idxs with
  | nil =>
    intro cars cols cols2 heq i c2 hc2
    simp only [insertCols] at heq
    injection heq with h1
    rw [h1]
    exact ⟨c2, hc2⟩
  | cons s0 restI ih =>
    intro cars cols cols2 heq i c2 hc2
    cases cars with
    | nil =>
      rw [show insertCols cols (s0 :: restI) [] = none from rfl] at heq
      exact Option.noConfusion heq
    | cons c0 restC =>
      simp only [insertCols] at heq
      split at heq
      · rename_i column hcols0
        split at heq
        · rename_i column2 hpush
          obtain ⟨c, hc⟩ := ih restC _ cols2 heq i c2 hc2
          rw [lget_set] at hc
          by_cases hsi : s0 = i ∧ s0 < cols.length
          · rw [if_pos hsi] at hc
            injection hc with hc1
            injection hc1 with hc2b
            rw [hsi.1] at hcols0
            exact ⟨column, hcols0⟩
          · rw [if_neg hsi] at hc
            exact ⟨c, hc⟩
        · exact Option.noConfusion heq
      · exact Option.noConfusion heq
      · exact Option.noConfusion heq

/-- Running a list of duplicate-free spawn calls from an invariant world:
totality, invariant preservation, returned indices are consecutive, and each
spawned entity's components are immediately retrievable. -/
theorem spawnSeq_spec (cs : List (List (Nat × Nat))) :
    ∀ w : World, WInv w → colExact w → (∀ c ∈ cs, (c.map Prod.fst).Nodup) →
    ∃ (w2 : World) (es : List EntityId),
      spawnSeq w cs = some (w2, es) ∧ WInv w2 ∧ colExact w2 ∧
      es.map EntityId.index =
        (List.range cs.length).map (fun k => w.entity_location_map.length + k) ∧
      w2.entity_location_map.length = w.entity_location_map.length + cs.length ∧
      ∀ (k : Nat) (c : List (Nat × Nat)), cs[k]? = some c →
        ∃ (wk wk2 : World) (e : EntityId) (esk : List EntityId),
          spawnSeq w (cs.take k) = some (wk, esk) ∧
          wk.spawn c = some (wk2, e) ∧ es[k]? = some e ∧
          (∀ t v : Nat, (t, v) ∈ c → wk2.get_component t e = some (some v)) := by
  induction cs with
  | nil =>
    intro w hw hx hnd
    refine ⟨w, [], rfl, hw, hx, by simp, by simp, ?_⟩
    intro k c hk
    simp at hk
  | cons c cs2 ih =>
    intro w hw hx hnd
    obtain ⟨w1, ai, row, hsp, hinv1, hreg, hmlen, hmfr, hmnew, harch, hai, hfr, hguard⟩ :=
      spawn_master w hw c
    obtain ⟨hvals, hexact1⟩ := hguard (hnd c (List.mem_cons_self c cs2)) hx
    obtain ⟨w2, es2, hseq2, hinv2, hexact2, hmap2, hlen2, hpref2⟩ :=
      ih w1 hinv1 hexact1 (fun c2 hc2 => hnd c2 (List.mem_cons_of_mem c hc2))
    have hseq : spawnSeq w (c :: cs2) = some (w2, ⟨w.entity_location_map.length, 0⟩ :: es2) := by
      simp only [spawnSeq, hsp, hseq2]
    refine ⟨w2, ⟨w.entity_location_map.length, 0⟩ :: es2, hseq, hinv2, hexact2, ?_, ?_, ?_⟩
    · rw [List.map_cons, hmap2, hmlen, List.length_cons, List.range_succ_eq_map,
        List.map_cons, List.map_map]
      show (⟨w.entity_location_map.length, 0⟩ : EntityId).index :: _ = _
      rw [show (⟨w.entity_location_map.length, 0⟩ : EntityId).index =
        w.entity_location_map.length + 0 from rfl]
      congr 1
      refine List.map_congr_left ?_
      intro a ha
      show w.entity_location_map.length + 1 + a = w.entity_location_map.length + (a + 1)
      omega
    · rw [hlen2, hmlen, List.length_cons]
      omega
    · intro k c2 hk
      cases k with
      | zero =>
        simp only [List.getElem?_cons_zero] at hk
        injection hk with hk1
        subst hk1
        exact ⟨w, w1, ⟨w.entity_location_map.length, 0⟩, [], rfl, hsp, by simp, hvals⟩
      | succ k2 =>
        simp only [List.getElem?_cons_succ] at hk
        obtain ⟨wk, wk2, e, esk, hseqk, hspk, hesk, hvalsk⟩ := hpref2 k2 c2 hk
        refine ⟨wk, wk2, e, ⟨w.entity_location_map.length, 0⟩ :: esk, ?_, hspk, ?_, hvalsk⟩
        · rw [List.take_succ_cons]
          simp only [spawnSeq, hsp, hseqk]
        · simpa using hesk

/-- C1 amended: for every sequence of spawn calls in which each call's
component types are pairwise distinct, every spawn succeeds, the returned
EntityIds are pairwise distinct (their indices are exactly 0, 1, 2, ...), and
immediately after each spawn returns its handle, get_component on that handle
returns Some of exactly the value passed in, for every component type in that
call's tuple. The duplicate-free restriction is forced by the counterexample:
a tuple naming the same type twice is expressible and breaks retrieval. -/
theorem spawn_sequence_correct (cs : List (List (Nat × Nat)))
    (hnd : ∀ c ∈ cs, (c.map Prod.fst).Nodup) :
    ∃ (w : World) (es : List EntityId),
      spawnSeq World.new cs = some (w, es) ∧
      es.map EntityId.index = List.range cs.length ∧
      es.Nodup ∧
      ∀ (k : Nat) (c : List (Nat × Nat)), cs[k]? = some c →
        ∃ (wk wk2 : World) (e : EntityId) (esk : List EntityId),
          spawnSeq World.new (cs.take k) = some (wk, esk) ∧
          wk.spawn c = some (wk2, e) ∧ es[k]? = some e ∧
          (∀ t v : Nat, (t, v) ∈ c → wk2.get_component t e = some (some v)) := by
  obtain ⟨w, es, hseq, _, _, hmap, _, hpref⟩ :=
    spawnSeq_spec cs World.new winv_new colExact_new hnd
  have hmap2 : es.map EntityId.index = List.range cs.length := by
    rw [hmap]
    rw [show (List.range cs.length).map
        (fun k => World.new.entity_location_map.length + k) =
        (List.range cs.length).map id from List.map_congr_left (fun a ha => by simp [World.new])]
    exact List.map_id _
  refine ⟨w, es, hseq, hmap2, ?_, hpref⟩
  refine List.Nodup.of_map EntityId.index ?_
  rw [hmap2]
  exact List.nodup_range cs.length

/-- C1 witness: two duplicate-free spawn calls, fully evaluated. -/
theorem spawn_sequence_correct_witness :
    (∀ c ∈ [[(0, 1)], [(1, 2), (2, 3)]], ((c : List (Nat × Nat)).map Prod.fst).Nodup) ∧
      (∃ (w : World) (es : List EntityId),
        spawnSeq World.new [[(0, 1)], [(1, 2), (2, 3)]] = some (w, es) ∧
        es.map EntityId.index = List.range 2 ∧
        es.Nodup ∧
        ∀ (k : Nat) (c : List (Nat × Nat)), [[(0, 1)], [(1, 2), (2, 3)]][k]? = some c →
          ∃ (wk wk2 : World) (e : EntityId) (esk : List EntityId),
            spawnSeq World.new ([[(0, 1)], [(1, 2), (2, 3)]].take k) = some (wk, esk) ∧
            wk.spawn c = some (wk2, e) ∧ es[k]? = some e ∧
            (∀ t v : Nat, (t, v) ∈ c → wk2.get_component t e = some (some v))) :=
  ⟨by decide, spawn_sequence_correct [[(0, 1)], [(1, 2), (2, 3)]] (by decide)⟩

/-- C1 counterexample: a spawn tuple naming type 0 twice is expressible; after
two such spawns, get_component on the second entity returns value 20, which
was passed in the first call, not either of the second call's values 30, 40.
So the claim as stated over all spawn sequences is false. -/
theorem spawn_duplicate_type_counterexample :
    ∃ w1 w2 : World, ∃ e0 e1 : EntityId,
      World.new.spawn [(0, 10), (0, 20)] = some (w1, e0) ∧
      w1.spawn [(0, 30), (0, 40)] = some (w2, e1) ∧
      w2.get_component 0 e1 = some (some 20) ∧
      ¬((20 : Nat) = 30 ∨ (20 : Nat) = 40) :=
  ⟨_, _, _, _, rfl, rfl, rfl, by decide⟩

/-- C8 amended: in every World reachable through spawns whose tuples are
duplicate-free, every populated column of every archetype holds exactly one
value per row (column.len = entities.len, so row r of every populated column
together with entities[r] describes one logical entity); and Archetype::insert
preserves the equality whenever the inserted component indices are
duplicate-free and exactly the populated slots. The duplicate-free restriction
is forced: a public spawn with a duplicated component type produces an
archetype violating the equality. -/
theorem archetype_column_length_invariant :
    (∀ w : World, ReachableND w → ∀ (ai : Nat) (ka : ArchetypeKey × Archetype),
      w.archetypes[ai]? = some ka → ∀ (i : Nat) (c : Column),
        ka.2.components[i]? = some (some c) → c.data.length = ka.2.entities.length) ∧
    (∀ (a a2 : Archetype) (e : EntityId) (idxs : List Nat) (cars : List Column),
      idxs.Nodup →
      (∀ i : Nat, (∃ c : Column, a.components[i]? = some (some c)) ↔ i ∈ idxs) →
      (∀ (i : Nat) (c : Column), a.components[i]? = some (some c) →
        c.data.length = a.entities.length) →
      a.insert e idxs cars = some a2 →
      ∀ (i : Nat) (c2 : Column), a2.components[i]? = some (some c2) →
        c2.data.length = a2.entities.length) := by
  constructor
  · intro w hr
    exact (reachableND_winv hr).2
  · intro a a2 e idxs cars hnd hpop hexact hins i c2 hc2
    unfold Archetype.insert at hins
    cases heq : insertCols a.components idxs cars with
    | none =>
      rw [heq] at hins
      cases hins
    | some cols2 =>
      rw [heq] at hins
      simp only [Option.map_some'] at hins
      injection hins with hins1
      rw [← hins1] at hc2 ⊢
      have hc2b : cols2[i]? = some (some c2) := hc2
      obtain ⟨c, hc⟩ := insertCols_back idxs cars a.components cols2 heq i c2 hc2b
      have hik : i ∈ idxs := (hpop i).mp ⟨c, hc⟩
      obtain ⟨k, hk⟩ := lmem_iff_get.mp hik
      have hklt : k < cars.length := by
        have h1 := insertCols_le idxs cars a.components cols2 heq
        have h2 := lget_some_lt hk
        omega
      obtain ⟨ck, hck⟩ : ∃ ck, cars[k]? = some ck :=
        lget_exists hklt
      obtain ⟨v0, vrest0, hv0, hget0⟩ :=
        insertCols_nodup_get idxs cars a.components cols2 hnd heq k i ck c hk hck hc
      rw [hc2b] at hget0
      injection hget0 with hg1
      injection hg1 with hg2
      rw [hg2]
      simp only [List.length_append, List.length_singleton]
      rw [hexact i c hc]

/-- C8 amended witness: a one-spawn duplicate-free world where the single
column holds exactly one value for the single row. -/
theorem archetype_column_length_invariant_witness :
    (World.new.spawn [(0, 5)] =
      some (⟨[([0], ⟨[some ⟨0, [5]⟩], [⟨0, 0⟩]⟩)], ⟨[0]⟩, ⟨[0], []⟩, [some (0, 0)]⟩,
        ⟨0, 0⟩)) ∧
      ((⟨0, [5]⟩ : Column).data.length =
        (⟨[some ⟨0, [5]⟩], [⟨0, 0⟩]⟩ : Archetype).entities.length) :=
  ⟨rfl,
    archetype_column_length_invariant.1
      ⟨[([0], ⟨[some ⟨0, [5]⟩], [⟨0, 0⟩]⟩)], ⟨[0]⟩, ⟨[0], []⟩, [some (0, 0)]⟩
      (@ReachableND.step World.new
        ⟨[([0], ⟨[some ⟨0, [5]⟩], [⟨0, 0⟩]⟩)], ⟨[0]⟩, ⟨[0], []⟩, [some (0, 0)]⟩
        [(0, 5)] ⟨0, 0⟩ ReachableND.base (by decide) rfl)
      0 ([0], ⟨[some ⟨0, [5]⟩], [⟨0, 0⟩]⟩) rfl 0 ⟨0, [5]⟩ rfl⟩

/-- C8 counterexample: a public spawn with a duplicated component type yields
a reachable archetype whose populated column holds 2 values against 1 row. -/
theorem archetype_column_length_counterexample :
    ∃ w1 : World, ∃ e0 : EntityId,
      World.new.spawn [(0, 10), (0, 20)] = some (w1, e0) ∧
      ∃ ka : ArchetypeKey × Archetype, w1.archetypes[0]? = some ka ∧
        ∃ c : Column, ka.2.components[0]? = some (some c) ∧
          c.data.length = 2 ∧ ka.2.entities.length = 1 :=
  ⟨_, _, rfl, _, rfl, _, rfl, rfl, rfl⟩

/-- A row read through get_column is unchanged when an archetype only gains
appended column values (same slots, same types, data extended), provided the
row was within the original column. -/
theorem get_column_frame {a a2 : Archetype} {t i row3 : Nat}
    (hclen : a2.components.length = a.components.length)
    (hback : ∀ (j : Nat) (c2 : Column), a2.components[j]? = some (some c2) →
      ∃ c : Column, a.components[j]? = some (some c) ∧ c2.tyId = c.tyId ∧
        ∃ rest : List Nat, c2.data = c.data ++ rest)
    (hfwd : ∀ (j : Nat) (c : Column), a.components[j]? = some (some c) →
      ∃ c2 : Column, a2.components[j]? = some (some c2))
    (hrow : ∀ c : Column, a.components[i]? = some (some c) → row3 < c.data.length) :
    (a2.get_column t i).bind (fun vec => vec[row3]?) =
      (a.get_column t i).bind (fun vec => vec[row3]?) := by
  unfold Archetype.get_column
  cases hslot : a.components[i]? with
  | none =>
    have hlen : a.components.length ≤ i := by
      by_contra hcon
      obtain ⟨x, hx⟩ : ∃ x, a.components[i]? = some x :=
        lget_exists (by omega)
      rw [hslot] at hx
      cases hx
    have h2 : a2.components[i]? = none := by
      rw [List.getElem?_eq_none]
      omega
    simp only [hslot, h2]
  | some opt =>
    have hi_lt : i < a.components.length := lget_some_lt hslot
    cases opt with
    | none =>
      obtain ⟨x, hx⟩ : ∃ x, a2.components[i]? = some x :=
        lget_exists (by omega)
      cases x with
      | none => simp only [hslot, hx]
      | some c2 =>
        obtain ⟨c, hc, _⟩ := hback i c2 hx
        rw [hslot] at hc
        injection hc with hcc
        cases hcc
    | some c =>
      obtain ⟨c2, hc2⟩ := hfwd i c hslot
      obtain ⟨c3, hc3, hty, rest, hd⟩ := hback i c2 hc2
      rw [hslot] at hc3
      injection hc3 with hcc
      injection hcc with hcc2
      rw [← hcc2] at hty hd
      simp only [hslot, hc2]
      by_cases hty2 : c.tyId = t
      · rw [if_pos (by rw [hty]; exact hty2), if_pos hty2]
        simp only [Option.some_bind]
        rw [hd]
        exact List.getElem?_append_left (hrow c hslot)
      · rw [if_neg (by rw [hty]; exact hty2), if_neg hty2]

/-- C10 amended: spawning does not disturb previously spawned entities. For
every world reachable by spawns alone, a further spawn succeeds, the new
entity's index equals the location map's current length, the map grows by
exactly one slot (the resize never truncates), every earlier entity's
(archetype_index, row) entry is unchanged, and get_component for every earlier
entity is unchanged for every component type that was registered before the
spawn. The registered-type restriction is forced: for a type first registered
by the spawn, get_component on an earlier entity changes from a panic
(unregistered-type unwrap) to returning None. -/
theorem spawn_frame (w : World) (hr : Reachable w) (comps : List (Nat × Nat)) :
    ∃ (w2 : World) (e : EntityId),
      w.spawn comps = some (w2, e) ∧
      e.index = w.entity_location_map.length ∧
      w2.entity_location_map.length = w.entity_location_map.length + 1 ∧
      (∀ ix : Nat, ix < w.entity_location_map.length →
        w2.entity_location_map[ix]? = w.entity_location_map[ix]?) ∧
      (∀ (e0 : EntityId) (t : Nat), e0.index < w.entity_location_map.length →
        (∃ i : Nat, w.type_registry.get_index t = some i) →
        w2.get_component t e0 = w.get_component t e0) := by
  have hw := reachable_winv hr
  obtain ⟨w2, ai, row, hsp, hinv, hreg, hmlen, hmfr, hmnew, harch, hai, hfr, _⟩ :=
    spawn_master w hw comps
  refine ⟨w2, ⟨w.entity_location_map.length, 0⟩, hsp, rfl, hmlen, hmfr, ?_⟩
  rintro e0 t hlt ⟨i, hgi⟩
  have hgi2 : w2.type_registry.get_index t = some i := by
    rw [hreg]
    exact registerAll_stable _ hgi
  have hmape : w2.entity_location_map[e0.index]? = w.entity_location_map[e0.index]? :=
    hmfr e0.index hlt
  unfold World.get_component
  simp only [hgi2, hgi, hmape]
  cases hloc : w.entity_location_map[e0.index]? with
  | none => rfl
  | some loc =>
    cases loc with
    | none => rfl
    | some pair =>
      obtain ⟨ai3, row3⟩ := pair
      obtain ⟨ai3b, row3b, hloc3, ka3, hka3, hrow3⟩ :=
        hw.locMap e0.index (some (ai3, row3)) hloc
      injection hloc3 with hloc4
      injection hloc4 with h5 h6
      obtain ⟨ka2, hka2, hkey2, hclen2, hbackf, hfwdf⟩ := hfr ai3 ka3 (by rw [h5]; exact hka3)
      simp only [hka2, (by rw [h5]; exact hka3 : w.archetypes[ai3]? = some ka3)]
      congr 1
      refine get_column_frame hclen2 hbackf hfwdf ?_
      intro c hslotc
      have h7 := (hw.archs ai3b ka3 hka3).colLenGe i c (by rw [← h5] at hka3; exact hslotc)
      omega

/-- C10 witness: one spawn from the empty world, exercising spawn_frame. -/
theorem spawn_frame_witness :
    ∃ (w2 : World) (e : EntityId),
      World.new.spawn [(0, 5)] = some (w2, e) ∧
      e.index = World.new.entity_location_map.length ∧
      w2.entity_location_map.length = World.new.entity_location_map.length + 1 ∧
      (∀ ix : Nat, ix < World.new.entity_location_map.length →
        w2.entity_location_map[ix]? = World.new.entity_location_map[ix]?) ∧
      (∀ (e0 : EntityId) (t : Nat), e0.index < World.new.entity_location_map.length →
        (∃ i : Nat, World.new.type_registry.get_index t = some i) →
        w2.get_component t e0 = World.new.get_component t e0) :=
  spawn_frame World.new Reachable.base [(0, 5)]

/-- C10 counterexample: a spawn that registers a brand-new component type
changes get_component for an earlier entity on that type from a panic
(unregistered-type unwrap, modelled none) to returning None, so spawn does not
leave every earlier get_component result unchanged. -/
theorem spawn_frame_counterexample :
    ∃ w1 w2 : World, ∃ e0 e1 : EntityId,
      World.new.spawn [(0, 10)] = some (w1, e0) ∧
      w1.spawn [(1, 20)] = some (w2, e1) ∧
      w1.get_component 1 e0 = none ∧
      w2.get_component 1 e0 = some none ∧
      (none : Option (Option Nat)) ≠ some none :=
  ⟨_, _, _, _, rfl, rfl, rfl, rfl, by decide⟩

/-- C6: find_or_create_archetype returns the existing archetype index for an
equal key and creates a new archetype only when no existing key equals the new
key; consequently two consecutive spawns (in a spawn-reachable world) whose
component sets resolve to the same sorted registry index list place both
entities in the same archetype instance. -/
theorem same_key_same_archetype :
    (∀ (archs : List (ArchetypeKey × Archetype)) (r : ComponentTypeIndexRegistry)
      (key : ArchetypeKey) (idxs : List Nat) (i : Nat),
      findArchetype archs key = some i →
        find_or_create_archetype archs r key idxs = some (archs, i)) ∧
    (∀ (archs : List (ArchetypeKey × Archetype)) (r : ComponentTypeIndexRegistry)
      (key : ArchetypeKey) (idxs : List Nat)
      (out : List (ArchetypeKey × Archetype) × Nat),
      find_or_create_archetype archs r key idxs = some out →
      archs.length < out.1.length → findArchetype archs key = none) ∧
    (∀ (w w1 w2 : World) (c1 c2 : List (Nat × Nat)) (e1 e2 : EntityId),
      Reachable w →
      w.spawn c1 = some (w1, e1) → w1.spawn c2 = some (w2, e2) →
      ArchetypeKey.new_sorted (registerAll w.type_registry (c1.map Prod.fst)).2 =
        ArchetypeKey.new_sorted (registerAll w1.type_registry (c2.map Prod.fst)).2 →
      ∃ ai r1 r2 : Nat,
        w2.entity_location_map[e1.index]? = some (some (ai, r1)) ∧
        w2.entity_location_map[e2.index]? = some (some (ai, r2))) := by
  refine ⟨?_, ?_, ?_⟩
  · intro archs r key idxs i hfind
    exact find_or_create_found hfind
  · intro archs r key idxs out hf hlen
    cases hfind : findArchetype archs key with
    | none => rfl
    | some i =>
      rw [find_or_create_found hfind] at hf
      injection hf with hf1
      rw [← hf1] at hlen
      simp at hlen
  · intro w w1 w2 c1 c2 e1 e2 hr hsp1 hsp2 hkeyeq
    have hw := reachable_winv hr
    obtain ⟨w1b, ai1, row1, hsp1b, hinv1, hreg1, hmlen1, hmfr1, hmnew1, harch1, hai1, _, _⟩ :=
      spawn_master w hw c1
    rw [hsp1] at hsp1b
    injection hsp1b with hpair1
    injection hpair1 with hww1 he1
    subst hww1
    obtain ⟨arch2a, harch2a⟩ := harch1
    obtain ⟨w2b, ai2, row2, hsp2b, hinv2, hreg2, hmlen2, hmfr2, hmnew2, harch2, hai2, _, _⟩ :=
      spawn_master w1 hinv1 c2
    rw [hsp2] at hsp2b
    injection hsp2b with hpair2
    injection hpair2 with hww2 he2
    subst hww2
    have hfind1 : findArchetype w1.archetypes
        (ArchetypeKey.new_sorted (registerAll w1.type_registry (c2.map Prod.fst)).2) =
        some ai1 := by
      rw [← hkeyeq]
      exact findArchetype_of_nodup hinv1.keysNodup harch2a
    have hai2eq : ai2 = ai1 := by
      rw [hai2, hfind1]
    refine ⟨ai1, row1, row2, ?_, ?_⟩
    · rw [he1]
      show w2.entity_location_map[(⟨w.entity_location_map.length, 0⟩ : EntityId).index]? = _
      rw [show (⟨w.entity_location_map.length, 0⟩ : EntityId).index =
        w.entity_location_map.length from rfl]
      rw [hmfr2 w.entity_location_map.length (by omega)]
      exact hmnew1
    · rw [he2]
      show w2.entity_location_map[(⟨w1.entity_location_map.length, 0⟩ : EntityId).index]? = _
      rw [show (⟨w1.entity_location_map.length, 0⟩ : EntityId).index =
        w1.entity_location_map.length from rfl]
      rw [← hai2eq]
      exact hmnew2

/-- C6 witness: two spawns with the same component set in opposite tuple
order, (type 0, type 1) then (type 1, type 0), land in the same archetype
instance (index 0, rows 0 and 1). -/
theorem same_key_same_archetype_witness :
    Reachable World.new ∧
      World.new.spawn [(0, 10), (1, 20)] =
        some (⟨[([0, 1], ⟨[some ⟨0, [10]⟩, some ⟨1, [20]⟩], [⟨0, 0⟩]⟩)],
          ⟨[0, 1]⟩, ⟨[0], []⟩, [some (0, 0)]⟩, ⟨0, 0⟩) ∧
      World.spawn ⟨[([0, 1], ⟨[some ⟨0, [10]⟩, some ⟨1, [20]⟩], [⟨0, 0⟩]⟩)],
          ⟨[0, 1]⟩, ⟨[0], []⟩, [some (0, 0)]⟩ [(1, 5), (0, 6)] =
        some (⟨[([0, 1], ⟨[some ⟨0, [10, 6]⟩, some ⟨1, [20, 5]⟩], [⟨0, 0⟩, ⟨1, 0⟩]⟩)],
          ⟨[0, 1]⟩, ⟨[0, 0], []⟩, [some (0, 0), some (0, 1)]⟩, ⟨1, 0⟩) ∧
      ArchetypeKey.new_sorted
          (registerAll World.new.type_registry ([(0, 10), (1, 20)].map Prod.fst)).2 =
        ArchetypeKey.new_sorted
          (registerAll (⟨[0, 1]⟩ : ComponentTypeIndexRegistry)
            ([(1, 5), (0, 6)].map Prod.fst)).2 ∧
      (∃ ai r1 r2 : Nat,
        ([some (0, 0), some (0, 1)] : List (Option (Nat × Nat)))[(0 : Nat)]? =
          some (some (ai, r1)) ∧
        ([some (0, 0), some (0, 1)] : List (Option (Nat × Nat)))[(1 : Nat)]? =
          some (some (ai, r2))) :=
  ⟨Reachable.base, rfl, rfl, rfl,
    same_key_same_archetype.2.2 World.new
      ⟨[([0, 1], ⟨[some ⟨0, [10]⟩, some ⟨1, [20]⟩], [⟨0, 0⟩]⟩)],
        ⟨[0, 1]⟩, ⟨[0], []⟩, [some (0, 0)]⟩
      ⟨[([0, 1], ⟨[some ⟨0, [10, 6]⟩, some ⟨1, [20, 5]⟩], [⟨0, 0⟩, ⟨1, 0⟩]⟩)],
        ⟨[0, 1]⟩, ⟨[0, 0], []⟩, [some (0, 0), some (0, 1)]⟩
      [(0, 10), (1, 20)] [(1, 5), (0, 6)] ⟨0, 0⟩ ⟨1, 0⟩
      Reachable.base rfl rfl rfl⟩
